import Mathlib

/-!
Verification development for microbundle's configuration-synthesis core
(src/index.js and src/lib/babel-custom.js).

The JavaScript sources are shallowly embedded: JS option records become the
inductive `JVal`, lodash.merge becomes `lodashMerge`, Babel `ConfigItem`s
become the structure `ConfigItem`, Node path functions are modelled over
`List Char`, and the filesystem / process effects are passed in as explicit
function parameters.
-/

namespace Microbundle

/-- Model of a JavaScript JSON-like value: booleans, numbers, strings,
arrays and objects (objects as ordered association lists, matching JS
property insertion order). -/
inductive JVal where
  | bool : Bool → JVal
  | num : Int → JVal
  | str : String → JVal
  | arr : List JVal → JVal
  | obj : List (String × JVal) → JVal

/-- Property lookup on a `JVal`: returns the value of field `k` when the
value is an object that declares `k`, and `none` otherwise (matching JS
property access yielding `undefined`). -/
def getField (k : String) : JVal → Option JVal
  | JVal.obj fields => fields.lookup k
  | _ => none

/-- Truthiness of a JS value (used for `||` fallbacks): `false`, `0` and
the empty string are falsy, everything else modelled here is truthy. -/
def jsFalsy : JVal → Bool
  | JVal.bool b => !b
  | JVal.num n => n == 0
  | JVal.str s => s == ""
  | _ => false

/-- Model of `a || b` on a possibly-absent JS value: an absent or falsy
value falls back to the default. -/
def jsOr (v : Option JVal) (dflt : JVal) : JVal :=
  match v with
  | some w => if jsFalsy w then dflt else w
  | none => dflt

/-- Remove the first field named `k` from an association list (helper for
the lodash.merge model). -/
def removeField (k : String) : List (String × JVal) → List (String × JVal)
  | [] => []
  | (k', v) :: rest => if k' = k then rest else (k', v) :: removeField k rest

mutual
/-- Model of `lodash.merge(dst, src)` for one source: objects are merged
recursively key by key (destination keys keep their positions, new source
keys are appended in source order), arrays are merged index-wise with the
source winning per index and extra destination elements kept, and in every
other combination the source value wins. Cross-kind merges of an array
into an object are simplified to source-wins; the claims only exercise
object/object and array/array merges. -/
def lodashMerge : JVal → JVal → JVal
  | JVal.obj d, JVal.obj s => JVal.obj (lodashMergeFields d s)
  | JVal.arr d, JVal.arr s => JVal.arr (lodashMergeArr d s)
  | _, s => s
termination_by a _ => sizeOf a

/-- Field-wise part of the lodash.merge model. -/
def lodashMergeFields : List (String × JVal) → List (String × JVal) → List (String × JVal)
  | [], s => s
  | (k, v) :: rest, s =>
    match s.lookup k with
    | some v2 => (k, lodashMerge v v2) :: lodashMergeFields rest (removeField k s)
    | none => (k, v) :: lodashMergeFields rest s
termination_by d _ => sizeOf d

/-- Index-wise part of the lodash.merge model on arrays. -/
def lodashMergeArr : List JVal → List JVal → List JVal
  | d, [] => d
  | [], sv :: s2 => sv :: s2
  | dv :: d2, sv :: s2 => lodashMerge dv sv :: lodashMergeArr d2 s2
termination_by d _ => sizeOf d
end

/-- Model of a Babel `ConfigItem`: the requested specifier, the resolved
absolute module path (the merge identity), and the options record. -/
structure ConfigItem where
  request : String
  resolved : String
  options : JVal

/-- The item produced by `createConfigItem([resolved, merge(oldOpts, newOpts)])`
in `mergeConfigItems`: re-created from the resolved path with merged options. -/
def mergedItem (old new : ConfigItem) : ConfigItem :=
  { request := old.resolved, resolved := old.resolved
    options := lodashMerge old.options new.options }

/-- One step of `mergeConfigItems`'s inner loop: look up an existing entry
by resolved-path identity; if absent append the item, otherwise replace the
first matching entry in place with the merged item. -/
def insertMerged : List ConfigItem → ConfigItem → List ConfigItem
  | [], item => [item]
  | m :: rest, item =>
    if m.resolved = item.resolved then mergedItem m item :: rest
    else m :: insertMerged rest item

/-- Model of `mergeConfigItems(type, ...configItemsToMerge)` from
babel-custom.js: fold every item of every supplied list through
`insertMerged` (the `type` argument only tags the re-created item and has
no observable effect here). -/
def mergeConfigItems (lists : List (List ConfigItem)) : List ConfigItem :=
  lists.foldl (fun acc l => l.foldl insertMerged acc) []

/-- Source item descriptor for `createConfigItems`: a module name plus the
remaining literal fields (`{ name, ...options }`). -/
structure ItemSpec where
  name : String
  options : JVal

/-- Model of `createConfigItems(type, items)`: each descriptor becomes a
ConfigItem whose request and resolved path are `require.resolve(name)`
(the resolver is passed in as a function parameter). -/
def createConfigItems (resolveModule : String → String) (items : List ItemSpec) : List ConfigItem :=
  items.map (fun it => { request := resolveModule it.name, resolved := resolveModule it.name
                         options := it.options })

/-- The two transforms microbundle always excludes from preset-env because
it lowers async functions and generators itself. -/
def hardExcludes : List JVal :=
  [JVal.str "transform-async-to-generator", JVal.str "transform-regenerator"]

/-- Model of the preset mapping applied to a filesystem Babel config
(babel-custom.js lines 90-124): a preset whose request is
`@babel/preset-env` is re-created with
`merge({loose: true, targets}, preset.options, {modules: false, exclude:
merge([async, regenerator], preset.options.exclude || [])})`; any other
preset passes through unchanged. -/
def presetEnvOverride (targets : JVal) (preset : ConfigItem) : ConfigItem :=
  if preset.request = "@babel/preset-env" then
    { request := preset.resolved, resolved := preset.resolved
      options :=
        lodashMerge
          (lodashMerge (JVal.obj [("loose", JVal.bool true), ("targets", targets)])
            preset.options)
          (JVal.obj
            [("modules", JVal.bool false),
             ("exclude",
              lodashMerge (JVal.arr hardExcludes)
                (jsOr (getField "exclude" preset.options) (JVal.arr [])))]) }
  else preset

/-- The `customOptions` record handed to the babel plugin wrapper. -/
structure CustomOptions where
  jsx : Option String
  jsxFragment : Option String
  defines : Option JVal
  targets : JVal

/-- Modelled from the spec: `isTruthy` from src/utils.js (not under src/);
the spec says the expression-replacement plugin is "only included when a
`defines` custom option is truthy". -/
def isTruthyOpt : Option JVal → Bool
  | some v => !jsFalsy v
  | none => false

/-- Model of `a || b` for possibly-absent JS strings (empty string falsy). -/
def strOr (v : Option String) (dflt : String) : String :=
  match v with
  | some s => if s = "" then dflt else s
  | none => dflt

/-- The fixed default plugin list of babel-custom.js's `config` hook. -/
def defaultPlugins (resolveModule : String → String) (custom : CustomOptions) : List ConfigItem :=
  createConfigItems resolveModule
    (([ some { name := "@babel/plugin-transform-react-jsx"
               options := JVal.obj
                 [("pragma", JVal.str (strOr custom.jsx "h")),
                  ("pragmaFrag", JVal.str (strOr custom.jsxFragment "Fragment"))] },
        if isTruthyOpt custom.defines then
          some { name := "babel-plugin-transform-replace-expressions"
                 options := JVal.obj [("replace", jsOr custom.defines (JVal.obj []))] }
        else none,
        some { name := "babel-plugin-transform-async-to-promises"
               options := JVal.obj
                 [("inlineHelpers", JVal.bool true), ("externalHelpers", JVal.bool true)] },
        some { name := "@babel/plugin-proposal-class-properties"
               options := JVal.obj [("loose", JVal.bool true)] },
        some { name := "@babel/plugin-transform-regenerator"
               options := JVal.obj [("async", JVal.bool false)] } ] :
        List (Option ItemSpec)).filterMap id)

/-- The babel options record produced by the `config` hook: presets may be
absent (a filesystem config with no `presets` key leaves the field as it
was), plugins are always produced. -/
structure BabelOptions where
  presets : Option (List ConfigItem)
  plugins : Option (List ConfigItem)

/-- Model of babel-custom.js's `config(config, { customOptions })` hook.
With a filesystem config, its options are taken as the base, every
`@babel/preset-env` preset is overridden via `presetEnvOverride`, and the
default plugins are merged with the config's own plugins. Without one, a
single preset-env ConfigItem is synthesized with the caller's targets,
`modules: false`, `loose: true` and the two hard excludes. -/
def babelConfigHook (resolveModule : String → String) (custom : CustomOptions)
    (fsConfig : Option BabelOptions) : BabelOptions :=
  let defaults := defaultPlugins resolveModule custom
  match fsConfig with
  | some cfg =>
    { presets := cfg.presets.map (fun ps => ps.map (presetEnvOverride custom.targets))
      plugins := some (mergeConfigItems [defaults, cfg.plugins.getD []]) }
  | none =>
    { presets := some (createConfigItems resolveModule
        [{ name := "@babel/preset-env"
           options := JVal.obj
             [("targets", custom.targets), ("modules", JVal.bool false),
              ("loose", JVal.bool true), ("exclude", JVal.arr hardExcludes)] }])
      plugins := some (mergeConfigItems [defaults, []]) }

/-- String list version of the index-wise lodash array merge: the source
wins at every shared index, extra elements of either side are kept. -/
def strListMerge : List String → List String → List String
  | d, [] => d
  | [], b :: s => b :: s
  | _ :: d, b :: s => b :: strListMerge d s

/-- Lift a list of strings to a list of JS string values. -/
def strs (l : List String) : List JVal := l.map JVal.str

/-- The names of the two hard preset-env excludes. -/
def hardStrings : List String :=
  ["transform-async-to-generator", "transform-regenerator"]

/-- First-occurrence deduplication: keeps the first occurrence of every
element, in order. -/
def firstOccDedup : List String → List String
  | [] => []
  | x :: xs => x :: firstOccDedup (xs.filter (fun y => y != x))
termination_by l => l.length
decreasing_by
  simp only [List.length_cons]
  exact Nat.lt_succ_of_le (List.length_filter_le _ _)

/-- The resolved-path list of a ConfigItem list (the merge keys). -/
def cfgPaths (l : List ConfigItem) : List String := l.map (fun c => c.resolved)

/-- No two items of the list share a resolved path. -/
def nodupPaths (l : List ConfigItem) : Prop := (cfgPaths l).Nodup

/-- How one item of the second list is reflected in the merged result: the
first item of `B` at the same resolved path is deep-merged over it, or it
passes through unchanged. -/
def mergeLookup (B : List ConfigItem) (a : ConfigItem) : ConfigItem :=
  match B.find? (fun b => b.resolved == a.resolved) with
  | some b => mergedItem a b
  | none => a

/-- Closed form of the plugin-list merge of two lists: items of `A` in
order, each overlaid with the matching item of `B` when one exists,
followed by the items of `B` whose paths do not occur in `A`. -/
def mergeSpecFun (A B : List ConfigItem) : List ConfigItem :=
  A.map (mergeLookup B) ++
    B.filter (fun b => !(A.any (fun a => a.resolved == b.resolved)))

/-! Embedding of src/index.js: Node path helpers (POSIX, over `List Char`),
the JS-regex tests used by the source, the format sort, entry
deduplication, `createConfig` and the front half of `microbundle` up to
the creation of the per-(entry, format) build configs.  Filesystem and
process effects (`stat`, `glob`, `readFile`, `process.cwd()`, `__dirname`)
are passed in as explicit function parameters. -/

/-- Split a character list on a separator (JS `String.split` semantics:
the empty input yields one empty field). -/
def splitOnChar (sep : Char) : List Char → List (List Char)
  | [] => [[]]
  | c :: cs =>
    if c = sep then [] :: splitOnChar sep cs
    else
      match splitOnChar sep cs with
      | [] => [[c]]
      | s :: rest => (c :: s) :: rest

/-- Join path segments with `/`. -/
def joinSegs : List (List Char) → List Char
  | [] => []
  | [s] => s
  | s :: rest => s ++ '/' :: joinSegs rest

/-- Normalize path segments: drop empty and `.` segments, resolve `..`
against the accumulated prefix (a `..` above the root is dropped, as in
Node's resolve for absolute paths). -/
def normSegs (acc : List (List Char)) : List (List Char) → List (List Char)
  | [] => acc.reverse
  | seg :: rest =>
    if seg.isEmpty || seg == ['.'] then normSegs acc rest
    else if seg == ['.', '.'] then normSegs acc.tail rest
    else normSegs (seg :: acc) rest

/-- Normalize an absolute path. -/
def normalizeAbs (l : List Char) : List Char :=
  '/' :: joinSegs (normSegs [] (splitOnChar '/' l))

/-- Model of Node `path.resolve(base, p)` for the uses in the source: every
call site passes an absolute base (or an absolute `p`), so resolution is
string joining followed by segment normalization. -/
def jsResolve (base p : String) : String :=
  if p.toList.head? = some '/' then String.mk (normalizeAbs p.toList)
  else String.mk (normalizeAbs (base.toList ++ '/' :: p.toList))

/-- Model of Node `path.basename` (POSIX, inputs without trailing slash). -/
def jsBasename (s : String) : String :=
  String.mk ((s.toList.reverse.takeWhile (fun c => c != '/')).reverse)

/-- Model of Node `path.dirname` (POSIX, inputs without trailing slash). -/
def jsDirname (s : String) : String :=
  let cs := s.toList
  let pre := ((cs.reverse.dropWhile (fun c => c != '/')).drop 1).reverse
  if pre.isEmpty then (if cs.head? = some '/' then "/" else ".") else String.mk pre

/-- Suffix test over strings. -/
def strEndsWith (s suffix : String) : Bool := suffix.toList.isSuffixOf s.toList

/-- Prefix test over character lists. -/
def listStartsWith : List Char → List Char → Bool
  | _, [] => true
  | [], _ :: _ => false
  | x :: xs, p :: ps => x = p && listStartsWith xs ps

/-- Substring test over character lists. -/
def containsSubChars (sub : List Char) : List Char → Bool
  | [] => sub.isEmpty
  | c :: rest => listStartsWith (c :: rest) sub || containsSubChars sub rest

/-- Substring test over strings. -/
def strContainsSub (s sub : String) : Bool := containsSubChars sub.toList s.toList

/-- Truthiness of a possibly-absent JS string (empty string is falsy). -/
def jsTruthyS : Option String → Bool
  | some s => s != ""
  | none => false

/-- Test of the regex `/\.[a-z]+$/` on a path: the text after the last dot
is a non-empty run of lowercase letters ending the string (an earlier dot
cannot match because the run would contain the later dot). -/
def hasLowerExt (s : String) : Bool :=
  let cs := s.toList
  cs.contains '.' &&
    (let t := (cs.reverse.takeWhile (fun c => c != '.')).reverse
     !t.isEmpty && t.all (fun c => 'a' ≤ c && c ≤ 'z'))

/-- Remove the leading maximal run of non-dot characters, as
`basename.replace(/^[^.]+/, '')` does. -/
def dropLeadingNonDots (s : String) : String :=
  String.mk (s.toList.dropWhile (fun c => c != '.'))

/-- Drop the last `n` characters of a string. -/
def strDropRight (s : String) (n : Nat) : String :=
  String.mk (s.toList.take (s.toList.length - n))

/-- The suffixes matched by `/(\\|\/)index(\.(umd|cjs|es|m))?\.js$/`. -/
def indexEntrySuffixes : List String :=
  (["/", "\\"].map (fun sep =>
    ["", ".umd", ".cjs", ".es", ".m"].map (fun tag => sep ++ "index" ++ tag ++ ".js"))).flatten

/-- Test of the entry-is-an-index-file regex. -/
def matchesIndexEntry (e : String) : Bool :=
  indexEntrySuffixes.any (fun suf => strEndsWith e suf)

/-- Model of `replace(/(\.(umd|cjs|es|m))?\.js$/, '')`: strip a trailing
`.js` together with an immediately preceding format tag, if any. -/
def stripFormatJs (s : String) : String :=
  if strEndsWith s ".umd.js" then strDropRight s 7
  else if strEndsWith s ".cjs.js" then strDropRight s 7
  else if strEndsWith s ".es.js" then strDropRight s 6
  else if strEndsWith s ".m.js" then strDropRight s 5
  else if strEndsWith s ".js" then strDropRight s 3
  else s

/-- Model of `replaceName(filename, name)` from createConfig:
`resolve(dirname(filename), name + basename(filename).replace(/^[^.]+/, ''))`. -/
def replaceName (filename name : String) : String :=
  jsResolve (jsDirname filename) (name ++ dropLeadingNonDots (jsBasename filename))

/-- Test of the globals regex `/^[a-z_$][a-z0-9_$]*$/` (lowercase-only
identifiers). -/
def isLowerIdentJs (n : String) : Bool :=
  match n.toList with
  | [] => false
  | c :: rest =>
    (('a' ≤ c && c ≤ 'z') || c = '_' || c = '$') &&
      rest.all (fun c2 => ('a' ≤ c2 && c2 ≤ 'z') || ('0' ≤ c2 && c2 ≤ '9') || c2 = '_' || c2 = '$')

/-- Refinement definition following the spec's words: a "valid bare
identifier", read as an ASCII JavaScript identifier (letters of either
case, digits, underscore and dollar, not starting with a digit). -/
def validBareIdentifier (n : String) : Bool :=
  match n.toList with
  | [] => false
  | c :: rest =>
    (('a' ≤ c && c ≤ 'z') || ('A' ≤ c && c ≤ 'Z') || c = '_' || c = '$') &&
      rest.all (fun c2 =>
        ('a' ≤ c2 && c2 ≤ 'z') || ('A' ≤ c2 && c2 ≤ 'Z') || ('0' ≤ c2 && c2 ≤ '9') ||
          c2 = '_' || c2 = '$')

/-- JS regex word characters (for `\b`): letters, digits and underscore. -/
def isWordCharJs (c : Char) : Bool :=
  ('a' ≤ c && c ≤ 'z') || ('A' ≤ c && c ≤ 'Z') || ('0' ≤ c && c ≤ '9') || c = '_'

/-- JS regex whitespace (`\s`), restricted to the ASCII whitespace the
tested sources can contain. -/
def isSpaceJs (c : Char) : Bool :=
  c = ' ' || c = '\t' || c = '\n' || c = '\r' || c = Char.ofNat 11 || c = Char.ofNat 12

/-- JS identifier start characters (the class `[a-zA-Z_$]`). -/
def isIdentStartJs (c : Char) : Bool :=
  ('a' ≤ c && c ≤ 'z') || ('A' ≤ c && c ≤ 'Z') || c = '_' || c = '$'

/-- Consume a literal from the front of the input, returning the rest. -/
def stripLit : List Char → List Char → Option (List Char)
  | [], l => some l
  | _ :: _, [] => none
  | c :: cs, x :: xs => if x = c then stripLit cs xs else none

/-- Match of `export\s*default\s*[a-zA-Z_$]` at the current position. -/
def matchDefaultAt (l : List Char) : Bool :=
  match stripLit "export".toList l with
  | none => false
  | some r =>
    match stripLit "default".toList (r.dropWhile isSpaceJs) with
    | none => false
    | some r2 =>
      match (r2.dropWhile isSpaceJs).head? with
      | some c => isIdentStartJs c
      | none => false

/-- Match of `(let|const|var|async|function\*?)\s*[a-zA-Z_$*]` at the
current position (the keyword part of the named-export regex). -/
def matchNamedKwAt (l : List Char) : Bool :=
  let tailOk := fun (r : List Char) =>
    match (r.dropWhile isSpaceJs).head? with
    | some c => isIdentStartJs c || c = '*'
    | none => false
  (match stripLit "let".toList l with | some r => tailOk r | none => false)
  || (match stripLit "const".toList l with | some r => tailOk r | none => false)
  || (match stripLit "var".toList l with | some r => tailOk r | none => false)
  || (match stripLit "async".toList l with | some r => tailOk r | none => false)
  || (match stripLit "function".toList l with
      | some r =>
        tailOk r ||
          (match r.head? with
           | some c => if c = '*' then tailOk (r.drop 1) else false
           | none => false)
      | none => false)

/-- Match of `export\s*(let|const|var|async|function\*?)\s*[a-zA-Z_$*]`
at the current position. -/
def matchNamedAt (l : List Char) : Bool :=
  match stripLit "export".toList l with
  | some r => matchNamedKwAt (r.dropWhile isSpaceJs)
  | none => false

/-- Scan every position of the input whose previous character is not a
word character (the `\b` word boundary) and test the matcher there. -/
def scanBoundary (p : List Char → Bool) : Option Char → List Char → Bool
  | prev, [] =>
    (match prev with | some c0 => !isWordCharJs c0 | none => true) && p []
  | prev, c :: rest =>
    ((match prev with | some c0 => !isWordCharJs c0 | none => true) && p (c :: rest))
    || scanBoundary p (some c) rest

/-- Test of `/\bexport\s*default\s*[a-zA-Z_$]/` on a source text. -/
def hasDefaultExport (s : String) : Bool := scanBoundary matchDefaultAt none s.toList

/-- Test of `/\bexport\s*(let|const|var|async|function\*?)\s*[a-zA-Z_$*]/`. -/
def hasNamedDecl (s : String) : Bool := scanBoundary matchNamedAt none s.toList

/-- Match of `\s*export\s*` followed by an opening brace at the current
position (used at line starts for the multiline `^\s*export\s*` brace
regex; the brace is written via its code point). -/
def matchExportBraceAt (l : List Char) : Bool :=
  match stripLit "export".toList (l.dropWhile isSpaceJs) with
  | some r => (r.dropWhile isSpaceJs).head? = some (Char.ofNat 123)
  | none => false

/-- Scan positions immediately after a line terminator. -/
def scanAfterNewline (p : List Char → Bool) : List Char → Bool
  | [] => false
  | c :: rest => ((c = '\n' || c = '\r') && p rest) || scanAfterNewline p rest

/-- Test of the multiline export-list regex on a source text: a match at
the start of some line. -/
def hasNamedBrace (s : String) : Bool :=
  matchExportBraceAt s.toList || scanAfterNewline matchExportBraceAt s.toList

/-- The named-export test of createConfig: either regex matches. -/
def hasNamedExport (s : String) : Bool := hasNamedDecl s || hasNamedBrace s

/-- JS string `>` comparison: lexicographic on code units. -/
def strGtChars : List Char → List Char → Bool
  | [], _ => false
  | _ :: _, [] => true
  | a :: as2, b :: bs =>
    if b < a then true
    else if a < b then false
    else strGtChars as2 bs

/-- JS `a > b` on strings. -/
def jsStrGt (a b : String) : Bool := strGtChars a.toList b.toList

/-- The format sort comparator of src/index.js line 76:
`(a, b) => a==='cjs' ? -1 : a>b ? 1 : 0`. -/
def formatCompare (a b : String) : Int :=
  if a = "cjs" then -1 else if jsStrGt a b then 1 else 0

/-- One step of linear insertion sort over a reversed prefix: the element
sinks below every earlier element `y` with `cmp y x > 0` (this is V8's
pre-TimSort insertion sort, used for short arrays in the engines of this
source's era; an inconsistent comparator makes the JS result
engine-defined, and this models the classical behaviour). -/
def insRev (cmp : String → String → Int) (x : String) : List String → List String
  | [] => [x]
  | y :: ys => if cmp y x > 0 then y :: insRev cmp x ys else x :: y :: ys

/-- Insertion sort driven by a JS comparator. -/
def jsSort (cmp : String → String → Int) (l : List String) : List String :=
  (l.foldl (fun acc x => insRev cmp x acc) []).reverse

/-- The format scheduling of microbundle: `formats.sort(comparator)`. -/
def sortFormats (l : List String) : List String := jsSort formatCompare l

/-- JS `Array.prototype.indexOf` for elements known to be present (the
absent case, `-1` in JS, is never consulted by the dedup filter). -/
def jsIndexOf (x : String) : List String → Nat
  | [] => 0
  | y :: ys => if y = x then 0 else jsIndexOf x ys + 1

/-- Pairs of (index, element) starting at `n`. -/
def jsEnum (n : Nat) : List String → List (Nat × String)
  | [] => []
  | x :: xs => (n, x) :: jsEnum (n + 1) xs

/-- The dedup of src/index.js line 68:
`filter((item, i, arr) => arr.indexOf(item) === i)`. -/
def jsDedup (l : List String) : List String :=
  ((jsEnum 0 l).filter (fun p => jsIndexOf p.2 l == p.1)).map Prod.snd

/-- JS `csv.split(sep)`. -/
def jsSplit (s : String) (sep : Char) : List String :=
  (splitOnChar sep s.toList).map (fun l => String.mk l)

/-- The package-manifest fields consumed by the embedded code paths.  The
`mangle` settings only feed the compression plugin and the name cache,
which are external collaborators outside the embedded scope. -/
structure Manifest where
  name : Option String
  main : Option String
  module : Option String
  source : Option String
  jsnextMain : Option String
  cjsMain : Option String
  umdMain : Option String
  amdName : Option String
  dependencies : Option (List String)
  peerDependencies : Option (List String)

/-- The manifest used when package.json cannot be read. -/
def emptyManifest : Manifest :=
  { name := none, main := none, module := none, source := none, jsnextMain := none
    cjsMain := none, umdMain := none, amdName := none, dependencies := none
    peerDependencies := none }

/-- The mutated `options` record as it reaches `createConfig`: resolved
working directory, resolved entries, resolved main output path, and the
remaining caller-supplied knobs that the embedded fields consume. -/
structure Options where
  cwd : String
  entries : List String
  output : String
  multipleEntries : Bool
  pkg : Manifest
  inline : Option String
  external : Option String
  strict : Bool
  compress : Bool
  jsx : Option String
  target : Option String
  name : Option String

/-- The input-side options handed to the bundling engine (the plugin
pipeline itself is an external collaborator and is not embedded). -/
structure InputOpts where
  input : String
  external : List String

/-- The output-side options handed to the bundling engine. -/
structure OutputOpts where
  exports : Option String
  paths : List (String × String)
  globals : List (String × String)
  strict : Bool
  legacy : Bool
  freeze : Bool
  sourcemap : Bool
  format : String
  file : String

/-- One per-(entry, format) build configuration. -/
structure BuildConfig where
  inputOptions : InputOpts
  outputOptions : OutputOpts

/-- The externals computation of `createConfig`: built-in module names,
peer dependency names, the other entries of the run, the `.` alias for
multi-entry runs; with external mode `all` or inline mode `none`, also
every manifest dependency — throwing when the manifest has no
`dependencies` object (`Object.keys(undefined)`). -/
def externalsOf (options : Options) (entry : String) : Except String (List String) :=
  let pkg := options.pkg
  let external0 := ["dns", "fs", "path", "url"] ++ pkg.peerDependencies.getD []
    ++ options.entries.filter (fun e => e ≠ entry)
  let external1 := if options.multipleEntries then external0 ++ ["."] else external0
  if options.inline = some "all" then Except.ok external1
  else if options.external = some "all" || options.inline = some "none" then
    match pkg.dependencies with
    | some deps => Except.ok (external1 ++ deps)
    | none => Except.error "TypeError: Cannot convert undefined or null to object"
  else Except.ok external1

/-- The cross-entry alias record of `createConfig`: for multi-entry runs
the literal `.` is mapped to `./<basename of the main output>`. -/
def aliasesOf (options : Options) : List (String × String) :=
  if options.multipleEntries then [(".", "./" ++ jsBasename options.output)] else []

/-- The globals reduce of `createConfig`: each external name matching the
lowercase identifier regex is bound to itself. -/
def globalsOf (external2 : List String) : List (String × String) :=
  external2.foldl (fun g n =>
    if isLowerIdentJs n then (if g.any (fun q => q.1 = n) then g else g ++ [(n, n)]) else g) []

/-- The `mainNoExtension` computation of `createConfig`. -/
def mainNoExtensionOf (options : Options) (entry : String) : String :=
  stripFormatJs
    (if options.multipleEntries then
      jsResolve (jsDirname options.output)
        (jsBasename (if matchesIndexEntry entry then options.output else entry))
    else options.output)

/-- The `moduleMain` computation of `createConfig`: manifest `module`
(unless pointing back into src/), else `jsnext:main`, else the `.m.js`
suffix donor. -/
def moduleMainOf (pkg : Manifest) (mainNoExtension : String) : String :=
  replaceName
    (if jsTruthyS pkg.module && !strContainsSub (pkg.module.getD "") "src/" then
      pkg.module.getD ""
     else strOr pkg.jsnextMain "x.m.js") mainNoExtension

/-- The `cjsMain` computation of `createConfig`. -/
def cjsMainOf (pkg : Manifest) (mainNoExtension : String) : String :=
  replaceName (strOr pkg.cjsMain "x.js") mainNoExtension

/-- The `umdMain` computation of `createConfig`. -/
def umdMainOf (pkg : Manifest) (mainNoExtension : String) : String :=
  replaceName (strOr pkg.umdMain "x.umd.js") mainNoExtension

/-- The export-shape detection of `createConfig`: only for non-ES formats,
swallowing read failures; `default` when the source has both a default
export and a named export. -/
def exportTypeOf (format : String) (readEntry : Option String) : Option String :=
  if format ≠ "es" then
    match readEntry with
    | some content =>
      if hasDefaultExport content && hasNamedExport content then some "default" else none
    | none => none
  else none

/-- The destination file of `createConfig`:
`resolve(cwd, (format==='es' && moduleMain) || (format==='umd' && umdMain) || cjsMain)`. -/
def outputFileOf (options : Options) (entry format : String) : String :=
  jsResolve options.cwd
    (if format = "es" then moduleMainOf options.pkg (mainNoExtensionOf options entry)
     else if format = "umd" then umdMainOf options.pkg (mainNoExtensionOf options entry)
     else cjsMainOf options.pkg (mainNoExtensionOf options entry))

/-- Model of `createConfig(options, entry, format, writeMeta)` from
src/index.js, restricted to the configuration fields (the plugin pipeline
is an external collaborator).  `readEntry` is the result of
`fs.readFileSync(entry)` (`none` when the read throws) and `dirnameVar` is
`__dirname`.  `writeMeta` only feeds the stylesheet-extraction and
name-cache plugins, which are outside the embedded fields.  The function
is fallible through `externalsOf`. -/
def createConfig (options : Options) (entry format : String) (writeMeta : Bool)
    (readEntry : Option String) (dirnameVar : String) : Except String BuildConfig :=
  match externalsOf options entry with
  | Except.error e => Except.error e
  | Except.ok external2 =>
    Except.ok
      { inputOptions :=
          { input :=
              match exportTypeOf format readEntry with
              | some _ => jsResolve dirnameVar "../src/lib/__entry__.js"
              | none => entry
            external := external2 }
        outputOptions :=
          { exports := exportTypeOf format readEntry
            paths := aliasesOf options
            globals := globalsOf external2
            strict := options.strict
            legacy := true
            freeze := false
            sourcemap := true
            format := format
            file := outputFileOf options entry format } }

/-- The caller-supplied run options before resolution. -/
structure RunOptions where
  cwd : String
  entries : List String
  output : Option String
  format : Option String
  formats : String
  inline : Option String
  external : Option String
  strict : Bool
  compress : Bool
  jsx : Option String
  target : Option String
  name : Option String

/-- The plan a successful configuration phase hands to the bundling
engine: the resolved output path, resolved entries and one BuildConfig per
(entry, format) pair, scheduled in order. -/
structure RunPlan where
  output : String
  entries : List String
  steps : List BuildConfig

/-- The missing-manifest warning text. -/
def warnNoPkg : String := "WARN no package.json found."

/-- The missing-name warning text. -/
def warnNoName (nm : String) : String :=
  "WARN missing package.json name field. Assuming " ++ nm ++ "."

/-- Sequence the eager per-step `createConfig` calls: the first throwing
call aborts the run. -/
def collectSteps : List (Except String BuildConfig) → Except String (List BuildConfig)
  | [] => Except.ok []
  | Except.error e :: _ => Except.error e
  | Except.ok c :: rest => (collectSteps rest).map (fun l => c :: l)

/-- The entry-resolution stage of `microbundle`: resolve each glob result
against the working directory, rewrite directories to their index file,
then dedup by the indexOf filter. -/
def resolveEntries (cwd : String) (isDir : String → Bool) (input : List String) : List String :=
  jsDedup (input.map (fun f =>
    let r := jsResolve cwd f
    if isDir r then jsResolve r "index.js" else r))

/-- Model of the configuration phase of `microbundle(options)` from
src/index.js, up to the step list handed to the bundling engine.  Effects
are parameters: `fsPkg` is the parsed package.json (`none` when the read
or parse throws), `isDir`/`isFile` are the stat probes, `globSync` the
glob expansion, `readFileStr` the entry source reader, `processCwd` the
process working directory and `dirnameVar` is `__dirname`.  Returns the
warnings emitted and either the run plan or the thrown error; an error
means the bundling engine is never invoked.  When no entries are given
and neither manifest fields nor the conventional files yield a candidate,
the candidate is `undefined` and `path.resolve(cwd, undefined)` throws. -/
def microbundleModel (opts : RunOptions) (fsPkg : Option Manifest)
    (isDir isFile : String → Bool) (globSync : String → List String)
    (readFileStr : String → Option String) (processCwd dirnameVar : String) :
    List String × Except String RunPlan :=
  let cwd := jsResolve processCwd opts.cwd
  let pw := match fsPkg with
    | some p => (p, ([] : List String))
    | none => (emptyManifest, [warnNoPkg])
  let pkg0 := pw.1
  let pkg :=
    if !jsTruthyS pkg0.name then { pkg0 with name := some (jsBasename cwd) } else pkg0
  let warns := pw.2 ++
    (if !jsTruthyS pkg0.name then [warnNoName (jsBasename cwd)] else [])
  let cand : Option (List String) :=
    if opts.entries ≠ [] then some opts.entries
    else if jsTruthyS pkg.source then some [pkg.source.getD ""]
    else if isDir (jsResolve cwd "src") then some ["src/index.js"]
    else if isFile (jsResolve cwd "index.js") then some ["index.js"]
    else match pkg.module with
      | some m => some [m]
      | none => none
  match cand with
  | none => (warns, Except.error "TypeError: Path must be a string. Received undefined")
  | some files =>
    let input := (files.map (fun f => globSync (jsResolve cwd f))).flatten
    let main0 := jsResolve cwd (strOr opts.output (strOr pkg.main "dist"))
    let mainOut :=
      if !hasLowerExt main0 || isDir main0 then
        jsResolve main0 (strOr pkg.name "" ++ ".js")
      else main0
    let entries := resolveEntries cwd isDir input
    let coptions : Options :=
      { cwd := cwd, entries := entries, output := mainOut
        multipleEntries := decide (entries.length > 1), pkg := pkg
        inline := opts.inline, external := opts.external, strict := opts.strict
        compress := opts.compress, jsx := opts.jsx, target := opts.target
        name := opts.name }
    let formats := sortFormats (jsSplit (strOr opts.format opts.formats) ',')
    let pairs := (entries.map (fun e => formats.map (fun f => (e, f)))).flatten
    let stepsE := pairs.enum.map (fun q =>
      createConfig coptions q.2.1 q.2.2 (decide (q.1 = 0)) (readFileStr q.2.1) dirnameVar)
    match collectSteps stepsE with
    | Except.error e => (warns, Except.error e)
    | Except.ok steps =>
      (warns, Except.ok { output := mainOut, entries := entries, steps := steps })

/-- Is the format name `cjs` or lexically greater than `cjs`?  This holds
for every other supported format name (`es`, `umd`, `iife`, `modern`). -/
def cjsMinimal (x : String) : Prop := x = "cjs" ∨ jsStrGt x "cjs" = true

/-- The example source of the spec scenario: both a default and a named
export. -/
def exampleBothExports : String := "export default foo\nexport const bar = 1"

/-- A concrete single-entry options record for witnesses. -/
def wOptions : Options :=
  { cwd := "/p", entries := ["/p/src/index.js"], output := "/p/dist/t.js"
    multipleEntries := false, pkg := emptyManifest, inline := none, external := none
    strict := false, compress := true, jsx := none, target := none, name := none }

/-- A concrete multi-entry options record for witnesses. -/
def mOptions : Options :=
  { cwd := "/p", entries := ["/p/src/a.js", "/p/src/b.js"], output := "/p/dist/bundle.js"
    multipleEntries := true, pkg := emptyManifest, inline := none, external := none
    strict := false, compress := true, jsx := none, target := none, name := none }

/-- A concrete options record with peer dependencies containing both a
lowercase name and an uppercase-containing one. -/
def c9Options : Options :=
  { cwd := "/p", entries := ["/p/src/index.js"], output := "/p/dist/t.js"
    multipleEntries := false
    pkg := { emptyManifest with peerDependencies := some ["react", "MD5"] }
    inline := none, external := none
    strict := false, compress := true, jsx := none, target := none, name := none }

/-- A concrete manifest for full-pipeline counterexamples. -/
def demoPkg : Manifest :=
  { emptyManifest with name := some "t", main := some "dist/bundle.js" }

/-- Run options with two index-named entries (both collapse onto the main
output path). -/
def c4RunOptions : RunOptions :=
  { cwd := "/p", entries := ["src/a/index.js", "src/b/index.js"], output := none
    format := none, formats := "es", inline := none, external := none
    strict := false, compress := true, jsx := none, target := none, name := none }

/-- Run options with two plainly named entries. -/
def c6RunOptions : RunOptions :=
  { cwd := "/p", entries := ["src/a.js", "src/b.js"], output := none
    format := none, formats := "cjs", inline := none, external := none
    strict := false, compress := true, jsx := none, target := none, name := none }

/-- Identity glob: each pattern resolves to itself. -/
def demoGlob : String → List String := fun s => [s]

/-- A filesystem probe that always answers no. -/
def alwaysFalse : String → Bool := fun _ => false

/-- A reader whose every read throws. -/
def noRead : String → Option String := fun _ => none

/-- The single fold step of the globals reduce. -/
def globalsStep (g : List (String × String)) (n : String) : List (String × String) :=
  if isLowerIdentJs n then (if g.any (fun q => q.1 = n) then g else g ++ [(n, n)]) else g

/-- A path segment that normalization keeps as-is: non-empty and neither
`.` nor `..`. -/
def goodSeg (seg : List Char) : Bool :=
  !seg.isEmpty && seg != ['.'] && seg != ['.', '.']

/-- An already-normalized absolute path: leading slash, and every segment
kept by normalization. -/
def cleanAbs (s : String) : Bool :=
  match s.toList with
  | c :: rest => c = '/' && (splitOnChar '/' rest).all goodSeg
  | [] => false

/-- Apply a function to the last element of a list. -/
def mapLast (f : List Char → List Char) : List (List Char) → List (List Char)
  | [] => []
  | [x] => [f x]
  | x :: y :: xs => x :: mapLast f (y :: xs)

theorem hardExcludes_eq_strs : hardExcludes = strs hardStrings := rfl

/-- Merging anything over a non-object, non-array destination yields the
source; stated for boolean destinations. -/
theorem lodashMerge_bool_dst (x : Bool) (w : JVal) :
    lodashMerge (JVal.bool x) w = w := by
  cases w <;> simp [lodashMerge]

/-- A scalar boolean source always wins, whatever the destination is. -/
theorem lodashMerge_bool_src (v : JVal) (b : Bool) :
    lodashMerge v (JVal.bool b) = JVal.bool b := by
  cases v <;> simp [lodashMerge]

/-- A string destination is always overwritten by the source. -/
theorem lodashMerge_str_dst (a : String) (w : JVal) :
    lodashMerge (JVal.str a) w = w := by
  cases w <;> simp [lodashMerge]

theorem removeField_lookup_ne (k k' : String) (s : List (String × JVal)) (h : k ≠ k') :
    (removeField k' s).lookup k = s.lookup k := by
  induction s with
  | nil => simp [removeField]
  | cons p rest ih =>
    obtain ⟨k1, v1⟩ := p
    by_cases hk : k1 = k'
    · subst hk
      have hb : (k == k1) = false := by simp [h]
      simp [removeField, List.lookup, hb]
    · by_cases hke : k = k1
      · subst hke; simp [removeField, List.lookup, hk]
      · have hb : (k == k1) = false := by simp [hke]
        simp [removeField, List.lookup, hk, hb, ih]

/-- Key lookup after a field-wise lodash merge: a key present on both sides
maps to the merge of the two values, a key present on one side passes
through, and a key on neither side is absent. -/
theorem lodashMergeFields_lookup (k : String) (d s : List (String × JVal)) :
    (lodashMergeFields d s).lookup k =
      match d.lookup k, s.lookup k with
      | some v, some w => some (lodashMerge v w)
      | some v, none => some v
      | none, some w => some w
      | none, none => none := by
  induction d generalizing s with
  | nil =>
    simp only [lodashMergeFields, List.lookup_nil]
    cases s.lookup k <;> rfl
  | cons p rest ih =>
    obtain ⟨k1, v1⟩ := p
    by_cases hk : k = k1
    · subst hk
      cases hs : s.lookup k <;>
        simp [lodashMergeFields, hs, List.lookup]
    · have hb : (k == k1) = false := by simp [hk]
      cases hs : s.lookup k1
      · simp [lodashMergeFields, hs, List.lookup, hb, ih]
      · simp only [lodashMergeFields, hs, List.lookup, hb, ih]
        rw [removeField_lookup_ne k k1 s hk]

/-- Merging a list of scalar strings index-wise into an at-least-as-long
source leaves the source unchanged. -/
theorem lodashMergeArr_strs_dst (d : List String) (w : List JVal)
    (hlen : d.length ≤ w.length) : lodashMergeArr (strs d) w = w := by
  induction d generalizing w with
  | nil => cases w <;> simp [strs, lodashMergeArr]
  | cons a d2 ih =>
    cases w with
    | nil => simp at hlen
    | cons b w2 =>
      simp only [List.length_cons, Nat.add_le_add_iff_right] at hlen
      have h2 := ih w2 hlen
      simp only [strs] at h2 ⊢
      simp [lodashMergeArr, lodashMerge_str_dst, h2]

theorem lodashMergeArr_strs_strs (d s : List String) :
    lodashMergeArr (strs d) (strs s) = strs (strListMerge d s) := by
  induction d generalizing s with
  | nil => cases s <;> simp [strs, lodashMergeArr, strListMerge]
  | cons a d2 ih =>
    cases s with
    | nil => simp [strs, lodashMergeArr, strListMerge]
    | cons b s2 =>
      have h2 := ih s2
      simp only [strs] at h2 ⊢
      simp [lodashMergeArr, strListMerge, lodashMerge_str_dst, h2]

theorem strListMerge_absorb (d w : List String) (h : d.length ≤ w.length) :
    strListMerge d w = w := by
  induction d generalizing w with
  | nil => cases w <;> simp [strListMerge]
  | cons a d2 ih =>
    cases w with
    | nil => simp at h
    | cons b w2 =>
      simp only [List.length_cons, Nat.add_le_add_iff_right] at h
      simp [strListMerge, ih w2 h]

theorem strListMerge_length (d s : List String) :
    (strListMerge d s).length = max d.length s.length := by
  induction d generalizing s with
  | nil => cases s <;> simp [strListMerge]
  | cons a d2 ih =>
    cases s with
    | nil => simp [strListMerge]
    | cons b s2 => simp [strListMerge, ih s2]; omega

/-- Characterization of the options produced by the preset-env override of
babel-custom.js: `modules` is forced to `false`; `loose` is `true` only as
a default that a user-declared `loose` overrides; `exclude` is the
index-wise lodash array merge of the two hard excludes with the
user-declared exclude list. -/
theorem presetEnvOverride_getField (t : JVal) (q : ConfigItem) (uf : List (String × JVal))
    (hreq : q.request = "@babel/preset-env") (hopts : q.options = JVal.obj uf) :
    getField "modules" (presetEnvOverride t q).options = some (JVal.bool false)
    ∧ getField "loose" (presetEnvOverride t q).options
        = some ((uf.lookup "loose").getD (JVal.bool true))
    ∧ ∀ us : List String,
        (uf.lookup "exclude" = none ∧ us = [] ∨ uf.lookup "exclude" = some (JVal.arr (strs us))) →
        getField "exclude" (presetEnvOverride t q).options
          = some (JVal.arr (strs (strListMerge hardStrings us))) := by
  have hbase :
      (presetEnvOverride t q).options =
        lodashMerge
          (lodashMerge (JVal.obj [("loose", JVal.bool true), ("targets", t)]) (JVal.obj uf))
          (JVal.obj
            [("modules", JVal.bool false),
             ("exclude",
              lodashMerge (JVal.arr hardExcludes)
                (jsOr (uf.lookup "exclude") (JVal.arr [])))]) := by
    simp [presetEnvOverride, hreq, hopts, getField]
  rw [hbase]
  simp only [lodashMerge]
  refine ⟨?_, ?_, ?_⟩
  · simp only [getField, lodashMergeFields_lookup]
    have h1 : List.lookup "modules" [("loose", JVal.bool true), ("targets", t)]
        = (none : Option JVal) := by simp [List.lookup]
    have h2 : List.lookup "modules"
          [("modules", JVal.bool false),
           ("exclude", lodashMerge (JVal.arr hardExcludes) (jsOr (uf.lookup "exclude") (JVal.arr [])))]
        = some (JVal.bool false) := by simp [List.lookup]
    rw [h1, h2]
    cases uf.lookup "modules" <;> simp [lodashMerge_bool_src]
  · simp only [getField, lodashMergeFields_lookup]
    have h1 : List.lookup "loose" [("loose", JVal.bool true), ("targets", t)]
        = some (JVal.bool true) := by simp [List.lookup]
    have h2 : List.lookup "loose"
          [("modules", JVal.bool false),
           ("exclude", lodashMerge (JVal.arr hardExcludes) (jsOr (uf.lookup "exclude") (JVal.arr [])))]
        = (none : Option JVal) := by simp [List.lookup]
    rw [h1, h2]
    cases uf.lookup "loose" <;> simp [lodashMerge_bool_dst]
  · intro us hus
    simp only [getField, lodashMergeFields_lookup]
    have h1 : List.lookup "exclude" [("loose", JVal.bool true), ("targets", t)]
        = (none : Option JVal) := by simp [List.lookup]
    have h2 : List.lookup "exclude"
          [("modules", JVal.bool false),
           ("exclude", lodashMerge (JVal.arr hardExcludes) (jsOr (uf.lookup "exclude") (JVal.arr [])))]
        = some (lodashMerge (JVal.arr hardExcludes) (jsOr (uf.lookup "exclude") (JVal.arr []))) := by
      simp [List.lookup]
    rw [h1, h2]
    rcases hus with ⟨hnone, hus0⟩ | hsome
    · subst hus0
      rw [hnone]
      simp [jsOr, hardExcludes_eq_strs, lodashMerge, lodashMergeArr, strListMerge, hardStrings]
    · rw [hsome]
      have hfalsy : jsFalsy (JVal.arr (strs us)) = false := by simp [jsFalsy]
      simp only [jsOr, hfalsy, Bool.false_eq_true, if_false,
        hardExcludes_eq_strs, lodashMergeArr_strs_strs, lodashMerge]
      rw [strListMerge_absorb us (strListMerge hardStrings us)]
      rw [strListMerge_length]
      omega

/-- Claim C1, counterexample: with a filesystem Babel config declaring
preset-env options `{ loose: false, exclude: ['transform-classes'] }`, the
resulting preset options have `loose: false` (not `true`) and their exclude
list is `['transform-classes', 'transform-regenerator']`, which does not
contain `transform-async-to-generator` — so the exclude set is not a
superset of the two hard excludes.  lodash.merge merges arrays index-wise,
so a user-declared exclude overwrites the hard excludes position by
position instead of being unioned with them. -/
theorem c1_counterexample :
    (((babelConfigHook id
        { jsx := none, jsxFragment := none, defines := none, targets := JVal.str "node 8" }
        (some { presets := some
                  [{ request := "@babel/preset-env", resolved := "/nm/preset-env"
                     options := JVal.obj [("loose", JVal.bool false),
                       ("exclude", JVal.arr [JVal.str "transform-classes"])] }]
                plugins := none })).presets.getD []).map
        (fun p => (getField "loose" p.options, getField "exclude" p.options)))
      = [(some (JVal.bool false),
          some (JVal.arr [JVal.str "transform-classes", JVal.str "transform-regenerator"]))]
    ∧ JVal.str "transform-async-to-generator" ∉
        [JVal.str "transform-classes", JVal.str "transform-regenerator"] := by
  constructor
  · simp [babelConfigHook, presetEnvOverride, lodashMerge, lodashMergeFields, lodashMergeArr,
      removeField, getField, jsOr, jsFalsy, hardExcludes, List.lookup]
  · simp

/-- Claim C1, amended: whenever an environment-targeting preset is present
in the final Babel options, `modules` is always `false`; `loose` is `true`
unless the user-declared preset options themselves set `loose` (the user
value wins); and the exclude list is lodash's index-wise array merge of
`[transform-async-to-generator, transform-regenerator]` with the
user-declared excludes — a superset of that pair whenever the user declares
no excludes (a user exclude list of length n overwrites the first
min(n, 2) hard entries).  In the synthesized branch (no filesystem config)
all three original properties hold unconditionally. -/
theorem c1_env_preset_override_amended
    (resolveM : String → String) (custom : CustomOptions) (fsPresets : List ConfigItem)
    (fsPlugins : Option (List ConfigItem)) (q : ConfigItem) (uf : List (String × JVal))
    (us : List String)
    (hq : q ∈ fsPresets) (hreq : q.request = "@babel/preset-env")
    (hopts : q.options = JVal.obj uf)
    (hex : uf.lookup "exclude" = none ∧ us = [] ∨ uf.lookup "exclude" = some (JVal.arr (strs us))) :
    (presetEnvOverride custom.targets q ∈
      ((babelConfigHook resolveM custom
          (some { presets := some fsPresets, plugins := fsPlugins })).presets.getD []))
    ∧ getField "modules" (presetEnvOverride custom.targets q).options = some (JVal.bool false)
    ∧ getField "loose" (presetEnvOverride custom.targets q).options
        = some ((uf.lookup "loose").getD (JVal.bool true))
    ∧ getField "exclude" (presetEnvOverride custom.targets q).options
        = some (JVal.arr (strs (strListMerge hardStrings us)))
    ∧ (us = [] →
        JVal.str "transform-async-to-generator" ∈ strs (strListMerge hardStrings us) ∧
        JVal.str "transform-regenerator" ∈ strs (strListMerge hardStrings us))
    ∧ (∀ p2 ∈ (babelConfigHook resolveM custom none).presets.getD [],
        getField "modules" p2.options = some (JVal.bool false) ∧
        getField "loose" p2.options = some (JVal.bool true) ∧
        getField "exclude" p2.options = some (JVal.arr (strs hardStrings))) := by
  obtain ⟨hm, hl, he⟩ := presetEnvOverride_getField custom.targets q uf hreq hopts
  refine ⟨?_, hm, hl, he us hex, ?_, ?_⟩
  · simp only [babelConfigHook, Option.map_some, Option.getD_some]
    exact List.mem_map_of_mem (presetEnvOverride custom.targets) hq
  · intro hus0
    subst hus0
    simp [strs, strListMerge, hardStrings]
  · intro p2 hp2
    simp only [babelConfigHook, createConfigItems, List.map, Option.getD_some,
      List.mem_singleton] at hp2
    subst hp2
    simp [getField, List.lookup, hardExcludes_eq_strs]

/-- Witness for the amended claim C1 at a concrete input: a filesystem
preset-env config with a single user exclude. -/
theorem c1_env_preset_override_amended_witness :
    getField "modules"
        (presetEnvOverride (JVal.str "node 8")
          { request := "@babel/preset-env", resolved := "/nm/preset-env"
            options := JVal.obj [("exclude", JVal.arr (strs ["transform-classes"]))] }).options
      = some (JVal.bool false)
    ∧ getField "exclude"
        (presetEnvOverride (JVal.str "node 8")
          { request := "@babel/preset-env", resolved := "/nm/preset-env"
            options := JVal.obj [("exclude", JVal.arr (strs ["transform-classes"]))] }).options
      = some (JVal.arr (strs (strListMerge hardStrings ["transform-classes"]))) := by
  have h := c1_env_preset_override_amended id
    { jsx := none, jsxFragment := none, defines := none, targets := JVal.str "node 8" }
    [{ request := "@babel/preset-env", resolved := "/nm/preset-env"
       options := JVal.obj [("exclude", JVal.arr (strs ["transform-classes"]))] }]
    none
    { request := "@babel/preset-env", resolved := "/nm/preset-env"
      options := JVal.obj [("exclude", JVal.arr (strs ["transform-classes"]))] }
    [("exclude", JVal.arr (strs ["transform-classes"]))]
    ["transform-classes"]
    (by simp) rfl rfl (Or.inr (by simp [List.lookup]))
  exact ⟨h.2.1, h.2.2.2.1⟩

theorem firstOccDedup_of_nodup (l : List String) (h : l.Nodup) : firstOccDedup l = l := by
  induction l using firstOccDedup.induct with
  | case1 => simp [firstOccDedup]
  | case2 x xs ih =>
    rw [List.nodup_cons] at h
    have hfix : xs.filter (fun y => y != x) = xs := by
      apply List.filter_eq_self.2
      intro y hy
      simp only [bne_iff_ne, ne_eq, decide_eq_true_eq]
      intro he; exact h.1 (he ▸ hy)
    rw [firstOccDedup, hfix]
    rw [hfix] at ih
    rw [ih h.2]

theorem firstOccDedup_subset (l : List String) : ∀ y ∈ firstOccDedup l, y ∈ l := by
  induction l using firstOccDedup.induct with
  | case1 => simp [firstOccDedup]
  | case2 x xs ih =>
    intro y hy
    rw [firstOccDedup] at hy
    rcases List.mem_cons.1 hy with h | h
    · simp [h]
    · exact List.mem_cons_of_mem x (List.mem_of_mem_filter (ih y h))

theorem firstOccDedup_nodup (l : List String) : (firstOccDedup l).Nodup := by
  induction l using firstOccDedup.induct with
  | case1 => simp [firstOccDedup]
  | case2 x xs ih =>
    rw [firstOccDedup, List.nodup_cons]
    refine ⟨?_, ih⟩
    intro hmem
    have := firstOccDedup_subset _ x hmem
    simp at this

theorem mem_firstOccDedup (l : List String) : ∀ y, y ∈ firstOccDedup l ↔ y ∈ l := by
  induction l using firstOccDedup.induct with
  | case1 => simp [firstOccDedup]
  | case2 x xs ih =>
    intro y
    rw [firstOccDedup, List.mem_cons, List.mem_cons, ih y]
    by_cases hxy : y = x
    · simp [hxy]
    · simp only [hxy, false_or, List.mem_filter, bne_iff_ne, ne_eq, decide_eq_true_eq]
      tauto

/-- Splitting first-occurrence dedup across an append: the second part is
deduplicated after removing everything that occurs in the first part. -/
theorem firstOccDedup_append (xs ys : List String) :
    firstOccDedup (xs ++ ys) =
      firstOccDedup xs ++ firstOccDedup (ys.filter (fun y => decide (y ∉ xs))) := by
  induction xs using firstOccDedup.induct generalizing ys with
  | case1 => simp [firstOccDedup]
  | case2 x xs ih =>
    rw [List.cons_append, firstOccDedup, firstOccDedup, List.filter_append, ih]
    have hf : (List.filter (fun y => y != x) ys).filter
          (fun y => decide (y ∉ List.filter (fun y => y != x) xs))
        = ys.filter (fun y => decide (y ∉ x :: xs)) := by
      rw [List.filter_filter]
      apply List.filter_congr
      intro y _
      by_cases hxy : y = x
      · simp [hxy]
      · simp only [hxy, bne_iff_ne, ne_eq, not_false_eq_true, Bool.true_and,
          List.mem_filter, List.mem_cons, decide_eq_true_eq, decide_not]
        by_cases hyxs : y ∈ xs <;> simp [hyxs, hxy]
    rw [hf, List.cons_append]

theorem mergedItem_resolved (a b : ConfigItem) : (mergedItem a b).resolved = a.resolved := rfl

theorem mergeLookup_resolved (B : List ConfigItem) (a : ConfigItem) :
    (mergeLookup B a).resolved = a.resolved := by
  unfold mergeLookup
  cases B.find? (fun b => b.resolved == a.resolved) <;> rfl

theorem anyPath_eq (A : List ConfigItem) (k : String) :
    A.any (fun a => a.resolved == k) = decide (k ∈ cfgPaths A) := by
  induction A with
  | nil => simp [cfgPaths]
  | cons a A ih =>
    rw [List.any_cons, ih]
    rw [Bool.eq_iff_iff]
    simp only [Bool.or_eq_true, beq_iff_eq, decide_eq_true_eq, cfgPaths, List.map_cons,
      List.mem_cons]
    exact ⟨fun h => h.elim (fun h2 => Or.inl h2.symm) Or.inr,
           fun h => h.elim (fun h2 => Or.inl h2.symm) Or.inr⟩

theorem insertMerged_of_fresh (acc : List ConfigItem) (item : ConfigItem)
    (h : ∀ m ∈ acc, m.resolved ≠ item.resolved) :
    insertMerged acc item = acc ++ [item] := by
  induction acc with
  | nil => rfl
  | cons m rest ih =>
    have hm : m.resolved ≠ item.resolved := h m (List.mem_cons_self m rest)
    simp only [insertMerged, hm, if_false]
    rw [ih (fun x hx => h x (List.mem_cons_of_mem m hx)), List.cons_append]

theorem foldl_insertMerged_fresh (l acc : List ConfigItem)
    (hfresh : ∀ x ∈ l, ∀ m ∈ acc, m.resolved ≠ x.resolved)
    (hl : nodupPaths l) :
    l.foldl insertMerged acc = acc ++ l := by
  induction l generalizing acc with
  | nil => simp
  | cons x rest ih =>
    rw [List.foldl_cons, insertMerged_of_fresh acc x
      (fun m hm => hfresh x (List.mem_cons_self x rest) m hm)]
    rw [nodupPaths, cfgPaths, List.map_cons, List.nodup_cons] at hl
    have hrest : nodupPaths rest := hl.2
    have hfresh2 : ∀ y ∈ rest, ∀ m ∈ acc ++ [x], m.resolved ≠ y.resolved := by
      intro y hy m hm
      rcases List.mem_append.1 hm with h | h
      · exact hfresh y (List.mem_cons_of_mem x hy) m h
      · rw [List.mem_singleton] at h
        subst h
        intro he
        exact hl.1 (he ▸ List.mem_map_of_mem (fun c => c.resolved) hy)
    rw [ih (acc ++ [x]) hfresh2 hrest, List.append_assoc, List.singleton_append]

theorem insertMerged_of_hit (acc : List ConfigItem) (b : ConfigItem)
    (hacc : nodupPaths acc) (hhit : ∃ a ∈ acc, a.resolved = b.resolved) :
    insertMerged acc b =
      acc.map (fun a => if a.resolved = b.resolved then mergedItem a b else a) := by
  induction acc with
  | nil => simp at hhit
  | cons m rest ih =>
    rw [nodupPaths, cfgPaths, List.map_cons, List.nodup_cons] at hacc
    by_cases hm : m.resolved = b.resolved
    · simp only [insertMerged, hm, if_true, List.map_cons]
      have hcong : ∀ a ∈ rest, (if a.resolved = b.resolved then mergedItem a b else a) = id a := by
        intro a ha
        have hne : a.resolved ≠ b.resolved := by
          intro he
          exact hacc.1 ((hm.trans he.symm) ▸ List.mem_map_of_mem (fun c => c.resolved) ha)
        simp [hne]
      rw [List.map_congr_left hcong, List.map_id]
    · simp only [insertMerged, hm, if_false, List.map_cons]
      have hhit2 : ∃ a ∈ rest, a.resolved = b.resolved := by
        rcases hhit with ⟨a, ha, he⟩
        rcases List.mem_cons.1 ha with h | h
        · exact absurd (h ▸ he) hm
        · exact ⟨a, h, he⟩
      rw [ih hacc.2 hhit2]

theorem find?_of_nodupPaths (B : List ConfigItem) (b : ConfigItem)
    (hB : nodupPaths B) (hb : b ∈ B) :
    B.find? (fun x => x.resolved == b.resolved) = some b := by
  induction B with
  | nil => simp at hb
  | cons h rest ih =>
    rw [nodupPaths, cfgPaths, List.map_cons, List.nodup_cons] at hB
    rcases List.mem_cons.1 hb with he | he
    · subst he
      simp [List.find?_cons]
    · have hne : (h.resolved == b.resolved) = false := by
        simp only [beq_eq_false_iff_ne, ne_eq]
        intro heq
        exact hB.1 (heq ▸ List.mem_map_of_mem (fun c => c.resolved) he)
      rw [List.find?_cons, hne]
      exact ih hB.2 he

/-- Closed form of folding a whole list through `insertMerged`: assuming
path-nodup inputs, the result is `mergeSpecFun`. -/
theorem foldl_insertMerged_spec (B : List ConfigItem) :
    ∀ A : List ConfigItem, nodupPaths A → nodupPaths B →
      B.foldl insertMerged A = mergeSpecFun A B := by
  induction B with
  | nil =>
    intro A hA hB
    simp only [List.foldl_nil, mergeSpecFun, List.filter_nil, List.append_nil]
    have hcong : ∀ a ∈ A, mergeLookup [] a = id a := by
      intro a _
      simp [mergeLookup]
    rw [List.map_congr_left hcong, List.map_id]
  | cons b rest ih =>
    intro A hA hB
    rw [nodupPaths, cfgPaths, List.map_cons, List.nodup_cons] at hB
    have hbfresh : b.resolved ∉ cfgPaths rest := hB.1
    have hrest : nodupPaths rest := hB.2
    rw [List.foldl_cons]
    by_cases hhit : ∃ a ∈ A, a.resolved = b.resolved
    · rw [insertMerged_of_hit A b hA hhit]
      have hupdres : ∀ a : ConfigItem,
          ((if a.resolved = b.resolved then mergedItem a b else a)).resolved = a.resolved := by
        intro a
        by_cases h : a.resolved = b.resolved <;> simp [h, mergedItem_resolved]
      have hpaths : cfgPaths (A.map (fun a => if a.resolved = b.resolved then mergedItem a b else a))
          = cfgPaths A := by
        rw [cfgPaths, cfgPaths, List.map_map]
        apply List.map_congr_left
        intro a _
        exact hupdres a
      have hA2 : nodupPaths (A.map (fun a => if a.resolved = b.resolved then mergedItem a b else a)) := by
        rw [nodupPaths, hpaths]
        exact hA
      rw [ih _ hA2 hrest]
      unfold mergeSpecFun
      have hany : A.any (fun a => a.resolved == b.resolved) = true := by
        rcases hhit with ⟨a0, ha0, he0⟩
        exact List.any_eq_true.2 ⟨a0, ha0, by simp [he0]⟩
      have hfilter : (b :: rest).filter (fun x => !(A.any (fun a => a.resolved == x.resolved)))
          = rest.filter (fun x => !(A.any (fun a => a.resolved == x.resolved))) := by
        rw [List.filter_cons]
        simp [hany]
      rw [hfilter]
      have hmap : (A.map (fun a => if a.resolved = b.resolved then mergedItem a b else a)).map
            (mergeLookup rest)
          = A.map (mergeLookup (b :: rest)) := by
        rw [List.map_map]
        apply List.map_congr_left
        intro a _
        by_cases ha : a.resolved = b.resolved
        · have hnone : rest.find? (fun x => x.resolved == (mergedItem a b).resolved) = none := by
            rw [List.find?_eq_none]
            intro x hx
            simp only [mergedItem_resolved, beq_eq_false_iff_ne, ne_eq, Bool.not_eq_true]
            intro he
            exact hbfresh (ha ▸ he ▸ List.mem_map_of_mem (fun c => c.resolved) hx)
          have hsome : (b :: rest).find? (fun x => x.resolved == a.resolved) = some b := by
            rw [List.find?_cons]
            simp [ha]
          simp only [Function.comp_apply, if_pos ha, mergeLookup]
          rw [hnone, hsome]
        · have heq : (b :: rest).find? (fun x => x.resolved == a.resolved)
              = rest.find? (fun x => x.resolved == a.resolved) := by
            rw [List.find?_cons]
            have : (b.resolved == a.resolved) = false := by
              simp only [beq_eq_false_iff_ne, ne_eq]
              intro he
              exact ha he.symm
            rw [this]
          simp only [Function.comp_apply, if_neg ha, mergeLookup]
          rw [heq]
      rw [hmap]
      have hfilter2 : rest.filter (fun x =>
            !((A.map (fun a => if a.resolved = b.resolved then mergedItem a b else a)).any
              (fun a => a.resolved == x.resolved)))
          = rest.filter (fun x => !(A.any (fun a => a.resolved == x.resolved))) := by
        apply List.filter_congr
        intro x _
        rw [anyPath_eq, anyPath_eq, hpaths]
      rw [hfilter2]
    · push_neg at hhit
      have hfreshA : ∀ m ∈ A, m.resolved ≠ b.resolved := hhit
      rw [insertMerged_of_fresh A b hfreshA]
      have hA2 : nodupPaths (A ++ [b]) := by
        rw [nodupPaths, cfgPaths, List.map_append]
        rw [List.nodup_append]
        refine ⟨hA, List.nodup_singleton _, ?_⟩
        intro p hp
        simp only [List.map_cons, List.map_nil, List.mem_singleton]
        rcases List.mem_map.1 hp with ⟨a, ha, he⟩
        intro he2
        exact hfreshA a ha (he2 ▸ he)
      rw [ih _ hA2 hrest]
      unfold mergeSpecFun
      have hblook : mergeLookup rest b = b := by
        have hnone : rest.find? (fun x => x.resolved == b.resolved) = none := by
          rw [List.find?_eq_none]
          intro x hx
          simp only [beq_eq_false_iff_ne, ne_eq, Bool.not_eq_true]
          intro he
          exact hbfresh (he ▸ List.mem_map_of_mem (fun c => c.resolved) hx)
        simp [mergeLookup, hnone]
      have hmap : (A ++ [b]).map (mergeLookup rest)
          = A.map (mergeLookup (b :: rest)) ++ [b] := by
        rw [List.map_append]
        congr 1
        · apply List.map_congr_left
          intro a ha
          have heq : (b :: rest).find? (fun x => x.resolved == a.resolved)
              = rest.find? (fun x => x.resolved == a.resolved) := by
            rw [List.find?_cons]
            have : (b.resolved == a.resolved) = false := by
              simp only [beq_eq_false_iff_ne, ne_eq]
              intro he
              exact hfreshA a ha he.symm
            rw [this]
          simp only [mergeLookup, heq]
        · simp [hblook]
      rw [hmap]
      have hfilter : rest.filter (fun x => !((A ++ [b]).any (fun a => a.resolved == x.resolved)))
          = rest.filter (fun x => !(A.any (fun a => a.resolved == x.resolved))) := by
        apply List.filter_congr
        intro x hx
        rw [List.any_append]
        have : ([b].any (fun a => a.resolved == x.resolved)) = false := by
          simp only [List.any_cons, List.any_nil, Bool.or_false, beq_eq_false_iff_ne, ne_eq]
          intro he
          exact hbfresh (he ▸ List.mem_map_of_mem (fun c => c.resolved) hx)
        rw [this, Bool.or_false]
      rw [hfilter]
      have hfilter2 : (b :: rest).filter (fun x => !(A.any (fun a => a.resolved == x.resolved)))
          = b :: rest.filter (fun x => !(A.any (fun a => a.resolved == x.resolved))) := by
        rw [List.filter_cons]
        have : (A.any (fun a => a.resolved == b.resolved)) = false := by
          rw [List.any_eq_false]
          intro a ha
          simp only [beq_eq_false_iff_ne, ne_eq, Bool.not_eq_true]
          exact hfreshA a ha
        simp [this]
      rw [hfilter2, List.append_assoc, List.singleton_append]

/-- The two-list instance of the babel-custom plugin merge, in closed form. -/
theorem mergeConfigItems_two (A B : List ConfigItem)
    (hA : nodupPaths A) (hB : nodupPaths B) :
    mergeConfigItems [A, B] = mergeSpecFun A B := by
  unfold mergeConfigItems
  simp only [List.foldl_cons, List.foldl_nil]
  have h1 : A.foldl insertMerged [] = A := by
    have := foldl_insertMerged_fresh A [] (fun x _ m hm => absurd hm (List.not_mem_nil m)) hA
    simpa using this
  rw [h1]
  exact foldl_insertMerged_spec B A hA hB

/-- Claim C3: merging two ConfigItem lists (with path-distinct items, as
produced by Babel configs) yields exactly one item per resolved path, in
first-seen order across the concatenation; an item of `B` sharing a path
with an item of `A` produces the single merged item at that path, whose
options are the lodash deep merge of A's and B's options with B winning on
conflicts; items whose path occurs on one side only pass through
unchanged. -/
theorem map_resolved_filter (p : String → Bool) (L : List ConfigItem) :
    (L.filter (fun b => p b.resolved)).map (fun c => c.resolved)
      = (L.map (fun c => c.resolved)).filter p := by
  induction L with
  | nil => rfl
  | cons b rest ih =>
    rw [List.filter_cons, List.map_cons, List.filter_cons]
    cases hp : p b.resolved
    · simpa [hp] using ih
    · simp [hp, ih]

theorem nodupPaths_iff (l : List ConfigItem) : nodupPaths l ↔ (cfgPaths l).Nodup := Iff.rfl

theorem c3_mergeConfigItems (A B : List ConfigItem) (hA : nodupPaths A) (hB : nodupPaths B) :
    cfgPaths (mergeConfigItems [A, B]) = firstOccDedup (cfgPaths (A ++ B))
    ∧ (cfgPaths (mergeConfigItems [A, B])).Nodup
    ∧ (∀ a ∈ A, ∀ b ∈ B, b.resolved = a.resolved → mergedItem a b ∈ mergeConfigItems [A, B])
    ∧ (∀ a ∈ A, (∀ b ∈ B, b.resolved ≠ a.resolved) → a ∈ mergeConfigItems [A, B])
    ∧ (∀ b ∈ B, (∀ a ∈ A, a.resolved ≠ b.resolved) → b ∈ mergeConfigItems [A, B]) := by
  rw [mergeConfigItems_two A B hA hB]
  have hmapPaths : cfgPaths (A.map (mergeLookup B)) = cfgPaths A := by
    rw [cfgPaths, cfgPaths, List.map_map]
    apply List.map_congr_left
    intro a _
    exact mergeLookup_resolved B a
  have hfilterPaths :
      cfgPaths (B.filter (fun b => !(A.any (fun a => a.resolved == b.resolved))))
        = (cfgPaths B).filter (fun y => decide (y ∉ cfgPaths A)) := by
    have hcong : B.filter (fun b => !(A.any (fun a => a.resolved == b.resolved)))
        = B.filter (fun b => decide (b.resolved ∉ cfgPaths A)) := by
      apply List.filter_congr
      intro b _
      rw [anyPath_eq, decide_not]
    rw [cfgPaths, hcong]
    simpa [cfgPaths] using map_resolved_filter (fun y => decide (y ∉ cfgPaths A)) B
  have hpaths : cfgPaths (mergeSpecFun A B) = firstOccDedup (cfgPaths (A ++ B)) := by
    have hsplit : cfgPaths (A ++ B) = cfgPaths A ++ cfgPaths B := by
      simp [cfgPaths]
    rw [hsplit, firstOccDedup_append]
    rw [mergeSpecFun, cfgPaths, List.map_append]
    rw [← cfgPaths, ← cfgPaths, hmapPaths, hfilterPaths]
    rw [firstOccDedup_of_nodup _ hA]
    rw [firstOccDedup_of_nodup _ (List.Nodup.filter _ hB)]
  refine ⟨hpaths, ?_, ?_, ?_, ?_⟩
  · rw [hpaths]
    exact firstOccDedup_nodup _
  · intro a ha b hb he
    have hfind : B.find? (fun x => x.resolved == a.resolved) = some b := by
      rw [← he]
      exact find?_of_nodupPaths B b hB hb
    have : mergeLookup B a = mergedItem a b := by
      simp [mergeLookup, hfind]
    rw [mergeSpecFun, ← this]
    exact List.mem_append_left _ (List.mem_map_of_mem (mergeLookup B) ha)
  · intro a ha hnone
    have hfind : B.find? (fun x => x.resolved == a.resolved) = none := by
      rw [List.find?_eq_none]
      intro b hb
      simp only [beq_eq_false_iff_ne, ne_eq, Bool.not_eq_true]
      exact hnone b hb
    have : mergeLookup B a = a := by
      simp [mergeLookup, hfind]
    rw [mergeSpecFun, ← this]
    exact List.mem_append_left _ (List.mem_map_of_mem (mergeLookup B) ha)
  · intro b hb hnone
    rw [mergeSpecFun]
    apply List.mem_append_right
    apply List.mem_filter.2
    refine ⟨hb, ?_⟩
    have : (A.any (fun a => a.resolved == b.resolved)) = false := by
      rw [List.any_eq_false]
      intro a ha
      simp only [beq_iff_eq]
      exact hnone a ha
    simp [this]

/-- Witness for claim C3 at concrete lists sharing the path `/r/p1`. -/
theorem c3_mergeConfigItems_witness :
    (mergedItem
        { request := "p1", resolved := "/r/p1", options := JVal.obj [("x", JVal.num 1)] }
        { request := "p1", resolved := "/r/p1"
          options := JVal.obj [("x", JVal.num 2), ("y", JVal.bool true)] }
      ∈ mergeConfigItems
        [[{ request := "p1", resolved := "/r/p1", options := JVal.obj [("x", JVal.num 1)] },
          { request := "p2", resolved := "/r/p2", options := JVal.obj [] }],
         [{ request := "p1", resolved := "/r/p1"
            options := JVal.obj [("x", JVal.num 2), ("y", JVal.bool true)] },
          { request := "p3", resolved := "/r/p3", options := JVal.obj [] }]])
    ∧ ({ request := "p2", resolved := "/r/p2", options := JVal.obj [] } : ConfigItem)
      ∈ mergeConfigItems
        [[{ request := "p1", resolved := "/r/p1", options := JVal.obj [("x", JVal.num 1)] },
          { request := "p2", resolved := "/r/p2", options := JVal.obj [] }],
         [{ request := "p1", resolved := "/r/p1"
            options := JVal.obj [("x", JVal.num 2), ("y", JVal.bool true)] },
          { request := "p3", resolved := "/r/p3", options := JVal.obj [] }]] := by
  have h := c3_mergeConfigItems
    [{ request := "p1", resolved := "/r/p1", options := JVal.obj [("x", JVal.num 1)] },
     { request := "p2", resolved := "/r/p2", options := JVal.obj [] }]
    [{ request := "p1", resolved := "/r/p1"
       options := JVal.obj [("x", JVal.num 2), ("y", JVal.bool true)] },
     { request := "p3", resolved := "/r/p3", options := JVal.obj [] }]
    ((nodupPaths_iff _).2 (by decide)) ((nodupPaths_iff _).2 (by decide))
  constructor
  · exact h.2.2.1 _ (List.mem_cons_self _ _) _ (List.mem_cons_self _ _) rfl
  · exact h.2.2.2.1 _ (List.mem_cons_of_mem _ (List.mem_cons_self _ _)) (by decide)

theorem strGtChars_irrefl (a : List Char) : strGtChars a a = false := by
  induction a with
  | nil => rfl
  | cons c cs ih => simp [strGtChars, lt_irrefl, ih]

theorem strGtChars_trans (a b c : List Char) (h1 : strGtChars a b = true)
    (h2 : strGtChars b c = true) : strGtChars a c = true := by
  induction a generalizing b c with
  | nil =>
    cases b <;> simp [strGtChars] at h1
  | cons x xs ih =>
    cases b with
    | nil => cases c <;> simp [strGtChars] at h2
    | cons y ys =>
      cases c with
      | nil => simp [strGtChars]
      | cons z zs =>
        simp only [strGtChars] at h1 h2 ⊢
        by_cases hyx : y < x
        · by_cases hzy : z < y
          · simp [lt_trans hzy hyx]
          · rw [if_neg hzy] at h2
            by_cases hyz : y < z
            · simp [hyz] at h2
            · have hzy2 : z = y := le_antisymm (not_lt.1 hyz) (not_lt.1 hzy)
              subst hzy2
              simp [hyx]
        · rw [if_neg hyx] at h1
          by_cases hxy : x < y
          · simp [hxy] at h1
          · have hxy2 : y = x := le_antisymm (not_lt.1 hxy) (not_lt.1 hyx)
            rw [if_neg hxy] at h1
            subst hxy2
            by_cases hzy : z < y
            · simp [hzy]
            · rw [if_neg hzy] at h2 ⊢
              by_cases hyz2 : y < z
              · simp [hyz2] at h2
              · rw [if_neg hyz2] at h2 ⊢
                exact ih ys zs h1 h2

theorem strGtChars_asymm (a b : List Char) (h : strGtChars a b = true) :
    strGtChars b a = false := by
  by_contra hb
  rw [Bool.not_eq_false] at hb
  have := strGtChars_trans a b a h hb
  rw [strGtChars_irrefl] at this
  exact Bool.false_ne_true this

theorem strGtChars_trichotomy (a b : List Char) :
    strGtChars a b = true ∨ strGtChars b a = true ∨ a = b := by
  induction a generalizing b with
  | nil =>
    cases b with
    | nil => exact Or.inr (Or.inr rfl)
    | cons y ys => exact Or.inr (Or.inl (by simp [strGtChars]))
  | cons x xs ih =>
    cases b with
    | nil => exact Or.inl (by simp [strGtChars])
    | cons y ys =>
      by_cases hyx : y < x
      · exact Or.inl (by simp [strGtChars, hyx])
      · by_cases hxy : x < y
        · refine Or.inr (Or.inl ?_)
          simp [strGtChars, hxy]
        · have hxy2 : y = x := le_antisymm (not_lt.1 hxy) (not_lt.1 hyx)
          subst hxy2
          rcases ih ys with h | h | h
          · exact Or.inl (by simp [strGtChars, lt_irrefl, h])
          · exact Or.inr (Or.inl (by simp [strGtChars, lt_irrefl, h]))
          · exact Or.inr (Or.inr (by rw [h]))

theorem jsStrGt_irrefl (a : String) : jsStrGt a a = false := strGtChars_irrefl _

theorem jsStrGt_trans (a b c : String) (h1 : jsStrGt a b = true) (h2 : jsStrGt b c = true) :
    jsStrGt a c = true := strGtChars_trans _ _ _ h1 h2

theorem jsStrGt_asymm (a b : String) (h : jsStrGt a b = true) : jsStrGt b a = false :=
  strGtChars_asymm _ _ h

theorem jsStrGt_trichotomy (a b : String) :
    jsStrGt a b = true ∨ jsStrGt b a = true ∨ a = b := by
  rcases strGtChars_trichotomy a.toList b.toList with h | h | h
  · exact Or.inl h
  · exact Or.inr (Or.inl h)
  · exact Or.inr (Or.inr (String.ext h))

theorem notGt_trans (x y z : String) (h1 : jsStrGt y x = false) (h2 : jsStrGt z y = false) :
    jsStrGt z x = false := by
  by_contra h
  rw [Bool.not_eq_false] at h
  rcases jsStrGt_trichotomy y z with hyz | hzy | heq
  · have := jsStrGt_trans y z x hyz h
    rw [h1] at this
    exact Bool.false_ne_true this
  · rw [h2] at hzy
    exact Bool.false_ne_true hzy
  · subst heq
    rw [h1] at h
    exact Bool.false_ne_true h

theorem formatCompare_pos_iff (y x : String) :
    formatCompare y x > 0 ↔ (y ≠ "cjs" ∧ jsStrGt y x = true) := by
  unfold formatCompare
  by_cases hy : y = "cjs"
  · simp [hy]
  · by_cases hgt : jsStrGt y x = true
    · simp [hy, hgt]
    · simp [hy, hgt]

theorem insRev_perm (cmp : String → String → Int) (x : String) (acc : List String) :
    (insRev cmp x acc).Perm (x :: acc) := by
  induction acc with
  | nil => exact List.Perm.refl _
  | cons y ys ih =>
    rw [insRev]
    by_cases hc : cmp y x > 0
    · rw [if_pos hc]
      exact (List.Perm.cons y ih).trans (List.Perm.swap x y ys)
    · rw [if_neg hc]

theorem notGt_of_cjsMinimal (x y : String) (hc : ¬formatCompare y x > 0)
    (hx : cjsMinimal x) : jsStrGt y x = false := by
  rw [formatCompare_pos_iff, not_and_or, not_not] at hc
  rcases hc with hy | hgt
  · subst hy
    rcases hx with h | h
    · rw [h]
      exact jsStrGt_irrefl _
    · exact jsStrGt_asymm _ _ h
  · exact Bool.not_eq_true _ ▸ hgt

theorem insRev_sorted (x : String) (acc : List String)
    (hx : cjsMinimal x) (hacc : ∀ y ∈ acc, cjsMinimal y)
    (hs : List.Sorted (fun a b => jsStrGt b a = false) acc) :
    List.Sorted (fun a b => jsStrGt b a = false) (insRev formatCompare x acc) := by
  induction acc with
  | nil => simp [insRev]
  | cons y ys ih =>
    rw [List.sorted_cons] at hs
    rw [insRev]
    by_cases hc : formatCompare y x > 0
    · rw [if_pos hc]
      rw [List.sorted_cons]
      constructor
      · intro z hz
        rcases List.mem_cons.1 ((insRev_perm formatCompare x ys).mem_iff.1 hz) with hzx | hzys
        · rw [hzx]
          exact jsStrGt_asymm _ _ ((formatCompare_pos_iff y x).1 hc).2
        · exact hs.1 z hzys
      · exact ih (fun z hz => hacc z (List.mem_cons_of_mem y hz)) hs.2
    · rw [if_neg hc]
      rw [List.sorted_cons]
      constructor
      · intro z hz
        have hyx : jsStrGt y x = false := notGt_of_cjsMinimal x y hc hx
        rcases List.mem_cons.1 hz with hzy | hzys
        · subst hzy
          exact hyx
        · exact notGt_trans x y z hyx (hs.1 z hzys)
      · rw [List.sorted_cons]
        exact hs

theorem foldl_insRev_aux (l : List String) :
    ∀ acc : List String, (∀ x ∈ l, cjsMinimal x) → (∀ y ∈ acc, cjsMinimal y) →
      List.Sorted (fun a b => jsStrGt b a = false) acc →
      (l.foldl (fun acc2 x => insRev formatCompare x acc2) acc).Perm (l ++ acc)
      ∧ List.Sorted (fun a b => jsStrGt b a = false)
          (l.foldl (fun acc2 x => insRev formatCompare x acc2) acc) := by
  induction l with
  | nil =>
    intro acc _ _ hs
    exact ⟨List.Perm.refl _, hs⟩
  | cons x rest ih =>
    intro acc hl hacc hs
    rw [List.foldl_cons]
    have hx : cjsMinimal x := hl x (List.mem_cons_self x rest)
    have hacc2 : ∀ y ∈ insRev formatCompare x acc, cjsMinimal y := by
      intro y hy
      rcases List.mem_cons.1 ((insRev_perm formatCompare x acc).mem_iff.1 hy) with h | h
      · subst h
        exact hx
      · exact hacc y h
    have hs2 := insRev_sorted x acc hx hacc hs
    have hrec := ih (insRev formatCompare x acc)
      (fun z hz => hl z (List.mem_cons_of_mem x hz)) hacc2 hs2
    refine ⟨?_, hrec.2⟩
    have h1 : (rest ++ insRev formatCompare x acc).Perm (rest ++ (x :: acc)) :=
      List.Perm.append_left rest (insRev_perm formatCompare x acc)
    exact (hrec.1.trans (h1.trans List.perm_middle)).trans (List.Perm.refl _)

/-- Claim C2, amended: for every format list containing `cjs` whose other
members are all lexically greater than `cjs` (true of every other
supported format name), the scheduled sequence is a permutation of the
input, sorted lexically (relative order of remaining formats lexical), and
begins with `cjs`.  Without that restriction `cjs` need not come first
(see the counterexample): the comparator returns 0 for any non-`cjs` pair
`a ≤ b` and never promotes `cjs` as the second argument. -/
theorem c2_format_sort_amended (l : List String)
    (hcjs : "cjs" ∈ l) (hl : ∀ x ∈ l, cjsMinimal x) :
    (sortFormats l).Perm l
    ∧ List.Sorted (fun a b => jsStrGt a b = false) (sortFormats l)
    ∧ (sortFormats l).head? = some "cjs" := by
  have haux := foldl_insRev_aux l [] hl (by intro y hy; simp at hy) (by simp)
  have hperm : (sortFormats l).Perm l := by
    rw [sortFormats, jsSort]
    exact (List.reverse_perm _).trans (by simpa using haux.1)
  have hsort : List.Sorted (fun a b => jsStrGt a b = false) (sortFormats l) := by
    rw [sortFormats, jsSort]
    exact (List.pairwise_reverse).2 haux.2
  refine ⟨hperm, hsort, ?_⟩
  have hmem : "cjs" ∈ sortFormats l := hperm.mem_iff.2 hcjs
  cases hR : sortFormats l with
  | nil => rw [hR] at hmem; simp at hmem
  | cons h t =>
    rw [hR] at hmem hsort
    rw [List.sorted_cons] at hsort
    rcases List.mem_cons.1 hmem with he | he
    · rw [← he]
      rfl
    · have hle := hsort.1 "cjs" he
      have hph : cjsMinimal h := hl h (hperm.subset (hR ▸ List.mem_cons_self h t))
      rcases hph with h1 | h1
      · rw [h1]
        rfl
      · rw [hle] at h1
        exact absurd h1 (by simp)

/-- Claim C2, counterexample: the input `['amd', 'cjs']` contains `cjs`,
yet the scheduled sequence keeps `amd` first — the comparator
`(a, b) => a==='cjs' ? -1 : a>b ? 1 : 0` returns 0 when comparing
`('amd', 'cjs')`, so no reordering happens. -/
theorem c2_counterexample :
    sortFormats ["amd", "cjs"] = ["amd", "cjs"]
    ∧ ¬((sortFormats ["amd", "cjs"]).head? = some "cjs") := by
  constructor
  · rfl
  · intro h
    simp [sortFormats, jsSort, insRev, formatCompare, jsStrGt, strGtChars] at h

/-- Witness for the amended claim C2 at the full default format set. -/
theorem c2_format_sort_amended_witness :
    (sortFormats ["es", "cjs", "umd"]).head? = some "cjs"
    ∧ (sortFormats ["es", "cjs", "umd"]).Perm ["es", "cjs", "umd"] :=
  ⟨(c2_format_sort_amended ["es", "cjs", "umd"] (by decide)
      (by intro x hx; fin_cases hx <;> simp [cjsMinimal] <;> decide)).2.2,
   (c2_format_sort_amended ["es", "cjs", "umd"] (by decide)
      (by intro x hx; fin_cases hx <;> simp [cjsMinimal] <;> decide)).1⟩

theorem jsEnum_shift (l : List String) (n : Nat) :
    jsEnum (n + 1) l = (jsEnum n l).map (fun p => (p.1 + 1, p.2)) := by
  induction l generalizing n with
  | nil => rfl
  | cons x xs ih => simp [jsEnum, ih]

/-- Generalized invariant for the indexOf-based dedup filter: positions
whose element already occurs in `S` are dropped, the rest keep exactly the
first occurrences. -/
theorem jsDedup_aux (xs : List String) :
    ∀ S : List String,
      (((jsEnum 0 xs).filter
          (fun p => decide (p.2 ∉ S) && (jsIndexOf p.2 xs == p.1))).map Prod.snd)
        = firstOccDedup (xs.filter (fun y => decide (y ∉ S))) := by
  induction xs with
  | nil =>
    intro S
    simp [jsEnum, firstOccDedup]
  | cons x xs ih =>
    intro S
    rw [jsEnum, jsEnum_shift, List.filter_cons, List.filter_map]
    have hhead : (decide (x ∉ S) && (jsIndexOf x (x :: xs) == 0)) = decide (x ∉ S) := by
      simp [jsIndexOf]
    rw [hhead]
    have htail :
        ((jsEnum 0 xs).filter
            ((fun p => decide (p.2 ∉ S) && (jsIndexOf p.2 (x :: xs) == p.1)) ∘
              (fun p => (p.1 + 1, p.2))))
          = (jsEnum 0 xs).filter
              (fun p => decide (p.2 ∉ x :: S) && (jsIndexOf p.2 xs == p.1)) := by
      apply List.filter_congr
      intro p _
      simp only [Function.comp_apply]
      by_cases hzx : x = p.2
      · have h0 : jsIndexOf p.2 (x :: xs) = 0 := by simp [jsIndexOf, hzx]
        rw [h0]
        have hmem : p.2 ∈ x :: S := by rw [← hzx]; exact List.mem_cons_self x S
        simp [hmem]
      · have h0 : jsIndexOf p.2 (x :: xs) = jsIndexOf p.2 xs + 1 := by
          simp [jsIndexOf, hzx]
        rw [h0]
        have hbeq : (jsIndexOf p.2 xs + 1 == p.1 + 1) = (jsIndexOf p.2 xs == p.1) := by
          rw [Bool.eq_iff_iff]
          simp
        rw [hbeq]
        have hmm : decide (p.2 ∉ x :: S) = (decide (p.2 ∉ S) && decide (p.2 ≠ x)) := by
          rw [Bool.eq_iff_iff]
          simp only [Bool.and_eq_true, decide_eq_true_eq, List.mem_cons, not_or]
          constructor
          · intro hp
            exact ⟨hp.2, hp.1⟩
          · intro hp
            exact ⟨hp.2, hp.1⟩
        by_cases hps : p.2 ∈ S
        · simp [hps]
        · have hne : p.2 ≠ x := fun he => hzx he.symm
          have h2 : p.2 ∉ x :: S := by
            rw [List.mem_cons]
            intro hc
            rcases hc with hc | hc
            · exact hne hc
            · exact hps hc
          simp [hps, h2]
    rw [htail]
    by_cases hx : x ∈ S
    · have hcond : decide (x ∉ S) = false := by simp [hx]
      rw [hcond]
      simp only [Bool.false_eq_true, if_false]
      have hSx : (jsEnum 0 xs).filter
            (fun p => decide (p.2 ∉ x :: S) && (jsIndexOf p.2 xs == p.1))
          = (jsEnum 0 xs).filter
            (fun p => decide (p.2 ∉ S) && (jsIndexOf p.2 xs == p.1)) := by
        apply List.filter_congr
        intro p _
        by_cases hps : p.2 ∈ S
        · simp [hps]
        · have hne : p.2 ≠ x := by
            intro he
            exact hps (he ▸ hx)
          have h2 : p.2 ∉ x :: S := by
            rw [List.mem_cons]
            intro hc
            rcases hc with hc | hc
            · exact hne hc
            · exact hps hc
          simp [hps, h2]
      rw [List.map_map]
      have hsnd : (Prod.snd ∘ fun p : Nat × String => (p.1 + 1, p.2)) = Prod.snd := rfl
      rw [hsnd, hSx, ih S]
      rw [List.filter_cons]
      have : decide (x ∉ S) = false := by simp [hx]
      rw [this]
      simp
    · have hcond : decide (x ∉ S) = true := by simp [hx]
      rw [hcond]
      simp only [if_true]
      rw [List.map_cons, List.map_map]
      have hsnd : (Prod.snd ∘ fun p : Nat × String => (p.1 + 1, p.2)) = Prod.snd := rfl
      rw [hsnd, ih (x :: S)]
      rw [List.filter_cons, hcond]
      simp only [if_true]
      rw [firstOccDedup]
      congr 1
      rw [List.filter_filter]
      congr 1
      apply List.filter_congr
      intro y _
      by_cases hys : y ∈ S
      · have h2 : y ∈ x :: S := List.mem_cons_of_mem x hys
        simp [hys, h2]
      · by_cases hyx : y = x
        · have h2 : y ∈ x :: S := by rw [hyx]; exact List.mem_cons_self x S
          simp [hyx, h2]
        · have h2 : y ∉ x :: S := by
            rw [List.mem_cons]
            intro hc
            rcases hc with hc | hc
            · exact hyx hc
            · exact hys hc
          simp [hys, h2, hyx]

/-- The indexOf-based dedup of src/index.js equals first-occurrence
deduplication. -/
theorem jsDedup_eq_firstOccDedup (l : List String) : jsDedup l = firstOccDedup l := by
  unfold jsDedup
  have hcong : (jsEnum 0 l).filter (fun p => jsIndexOf p.2 l == p.1)
      = (jsEnum 0 l).filter
          (fun p => decide (p.2 ∉ ([] : List String)) && (jsIndexOf p.2 l == p.1)) := by
    apply List.filter_congr
    intro p _
    simp
  rw [hcong, jsDedup_aux l []]
  congr 1
  apply List.filter_eq_self.2
  intro y _
  simp

/-- Claim C7: after candidate expansion, directory-to-index rewriting and
absolute-path resolution, the resolved entry sequence is exactly the
first-occurrence deduplication of the mapped inputs — every distinct
resolved path appears exactly once, in first-occurrence order. -/
theorem c7_entry_resolution (cwd : String) (isDir : String → Bool) (input : List String) :
    resolveEntries cwd isDir input
      = firstOccDedup (input.map (fun f =>
          let r := jsResolve cwd f
          if isDir r then jsResolve r "index.js" else r))
    ∧ (resolveEntries cwd isDir input).Nodup
    ∧ (∀ x, x ∈ resolveEntries cwd isDir input ↔
        x ∈ input.map (fun f =>
          let r := jsResolve cwd f
          if isDir r then jsResolve r "index.js" else r))
    ∧ ∀ x ∈ input.map (fun f =>
          let r := jsResolve cwd f
          if isDir r then jsResolve r "index.js" else r),
        (resolveEntries cwd isDir input).count x = 1 := by
  have h := jsDedup_eq_firstOccDedup (input.map (fun f =>
    let r := jsResolve cwd f
    if isDir r then jsResolve r "index.js" else r))
  have hnodup : (resolveEntries cwd isDir input).Nodup := by
    rw [resolveEntries, h]
    exact firstOccDedup_nodup _
  have hmem : ∀ x, x ∈ resolveEntries cwd isDir input ↔
      x ∈ input.map (fun f =>
        let r := jsResolve cwd f
        if isDir r then jsResolve r "index.js" else r) := by
    intro x
    rw [resolveEntries, h]
    exact mem_firstOccDedup _ x
  refine ⟨h, hnodup, hmem, ?_⟩
  intro x hx
  exact List.count_eq_one_of_mem hnodup ((hmem x).2 hx)

/-- Claim C8: with no explicit entries, a missing manifest, no `src`
directory and no root `index.js`, the entry candidate chain ends in the
manifest's absent `module` field, so `path.resolve(cwd, undefined)` throws
before any build config (and hence any engine invocation) is created; the
missing-manifest warning has already been emitted. -/
theorem c8_no_entry_fatal (opts : RunOptions) (isDir isFile : String → Bool)
    (globSync : String → List String) (readFileStr : String → Option String)
    (processCwd dirnameVar : String)
    (hentries : opts.entries = [])
    (hsrc : isDir (jsResolve (jsResolve processCwd opts.cwd) "src") = false)
    (hidx : isFile (jsResolve (jsResolve processCwd opts.cwd) "index.js") = false) :
    (microbundleModel opts none isDir isFile globSync readFileStr processCwd dirnameVar).2
      = Except.error "TypeError: Path must be a string. Received undefined"
    ∧ warnNoPkg ∈
        (microbundleModel opts none isDir isFile globSync readFileStr processCwd dirnameVar).1 := by
  unfold microbundleModel
  simp [hentries, hsrc, hidx, emptyManifest, jsTruthyS]

/-- Witness for claim C8 at a fully concrete barren project. -/
theorem c8_no_entry_fatal_witness :
    (microbundleModel
        { cwd := ".", entries := [], output := none, format := none
          formats := "es,cjs,umd", inline := none, external := none, strict := false
          compress := true, jsx := none, target := none, name := none }
        none (fun _ => false) (fun _ => false) (fun _ => []) (fun _ => none)
        "/work/proj" "/nm").2
      = Except.error "TypeError: Path must be a string. Received undefined"
    ∧ warnNoPkg ∈
        (microbundleModel
          { cwd := ".", entries := [], output := none, format := none
            formats := "es,cjs,umd", inline := none, external := none, strict := false
            compress := true, jsx := none, target := none, name := none }
          none (fun _ => false) (fun _ => false) (fun _ => []) (fun _ => none)
          "/work/proj" "/nm").1 :=
  c8_no_entry_fatal
    { cwd := ".", entries := [], output := none, format := none
      formats := "es,cjs,umd", inline := none, external := none, strict := false
      compress := true, jsx := none, target := none, name := none }
    (fun _ => false) (fun _ => false) (fun _ => []) (fun _ => none) "/work/proj" "/nm"
    rfl rfl rfl

/-- Claim C10: with dependency mode external `all` or inline `none` and a
manifest without a `dependencies` object, `Object.keys(pkg.dependencies)`
throws, so configuration creation fails; with a `dependencies` object it
succeeds — the object is a precondition in those modes. -/
theorem c10_dependencies_precondition (options : Options) (entry format : String)
    (writeMeta : Bool) (readEntry : Option String) (dirnameVar : String) :
    (options.inline ≠ some "all" →
      (options.external = some "all" ∨ options.inline = some "none") →
      options.pkg.dependencies = none →
      createConfig options entry format writeMeta readEntry dirnameVar
        = Except.error "TypeError: Cannot convert undefined or null to object")
    ∧ (∀ deps, options.pkg.dependencies = some deps →
        (createConfig options entry format writeMeta readEntry dirnameVar).isOk = true) := by
  constructor
  · intro hni hmode hdeps
    have hcond : (decide (options.external = some "all") ||
        decide (options.inline = some "none")) = true := by
      rcases hmode with h | h <;> simp [h]
    simp [createConfig, externalsOf, hni, hcond, hdeps]
  · intro deps hdeps
    by_cases hia : options.inline = some "all"
    · simp [createConfig, externalsOf, hia, Except.isOk, Except.toBool]
    · by_cases hex : options.external = some "all"
      · simp [createConfig, externalsOf, hia, hex, hdeps, Except.isOk, Except.toBool]
      · by_cases hin : options.inline = some "none"
        · simp [createConfig, externalsOf, hia, hex, hin, hdeps, Except.isOk, Except.toBool]
        · simp [createConfig, externalsOf, hia, hex, hin, Except.isOk, Except.toBool]

/-- Witness for claim C10: a concrete run in inline `none` mode with no
dependencies object throws, and the same run with one succeeds. -/
theorem c10_dependencies_precondition_witness :
    (createConfig
        { cwd := "/p", entries := ["/p/src/index.js"], output := "/p/dist/t.js"
          multipleEntries := false, pkg := emptyManifest, inline := some "none"
          external := none, strict := false, compress := true, jsx := none
          target := none, name := none }
        "/p/src/index.js" "cjs" true none "/nm"
      = Except.error "TypeError: Cannot convert undefined or null to object")
    ∧ (createConfig
        { cwd := "/p", entries := ["/p/src/index.js"], output := "/p/dist/t.js"
          multipleEntries := false
          pkg := { emptyManifest with dependencies := some ["react"] }, inline := some "none"
          external := none, strict := false, compress := true, jsx := none
          target := none, name := none }
        "/p/src/index.js" "cjs" true none "/nm").isOk = true :=
  ⟨(c10_dependencies_precondition
      { cwd := "/p", entries := ["/p/src/index.js"], output := "/p/dist/t.js"
        multipleEntries := false, pkg := emptyManifest, inline := some "none"
        external := none, strict := false, compress := true, jsx := none
        target := none, name := none }
      "/p/src/index.js" "cjs" true none "/nm").1 (by simp) (Or.inr rfl) rfl,
   (c10_dependencies_precondition
      { cwd := "/p", entries := ["/p/src/index.js"], output := "/p/dist/t.js"
        multipleEntries := false
        pkg := { emptyManifest with dependencies := some ["react"] }, inline := some "none"
        external := none, strict := false, compress := true, jsx := none
        target := none, name := none }
      "/p/src/index.js" "cjs" true none "/nm").2 ["react"] rfl⟩

/-- Fields of a successfully created config, in terms of the named
sub-computations. -/
theorem createConfig_ok_fields (options : Options) (entry format : String)
    (writeMeta : Bool) (readEntry : Option String) (dirnameVar : String)
    (cfg : BuildConfig)
    (hok : createConfig options entry format writeMeta readEntry dirnameVar
      = Except.ok cfg) :
    ∃ ext2, externalsOf options entry = Except.ok ext2
      ∧ cfg.inputOptions.external = ext2
      ∧ cfg.inputOptions.input =
          (match exportTypeOf format readEntry with
           | some _ => jsResolve dirnameVar "../src/lib/__entry__.js"
           | none => entry)
      ∧ cfg.outputOptions.exports = exportTypeOf format readEntry
      ∧ cfg.outputOptions.paths = aliasesOf options
      ∧ cfg.outputOptions.globals = globalsOf ext2
      ∧ cfg.outputOptions.file = outputFileOf options entry format := by
  unfold createConfig at hok
  cases hE : externalsOf options entry with
  | error e =>
    rw [hE] at hok
    exact absurd hok (by simp)
  | ok ext2 =>
    rw [hE] at hok
    simp only [Except.ok.injEq] at hok
    exact ⟨ext2, rfl, by rw [← hok], by rw [← hok], by rw [← hok], by rw [← hok],
      by rw [← hok], by rw [← hok]⟩

/-- Claim C5: export-shape handling.  ES-format builds never substitute
the wrapper; an unreadable entry is swallowed and never substitutes the
wrapper; a non-ES build of a source with both a default and a named
export replaces the input root with the synthetic wrapper entry and
forces the output exports mode to `default`. -/
theorem c5_export_shape (options : Options) (entry format : String) (writeMeta : Bool)
    (readEntry : Option String) (dirnameVar : String) (cfg : BuildConfig)
    (hok : createConfig options entry format writeMeta readEntry dirnameVar
      = Except.ok cfg) :
    (format = "es" →
      cfg.inputOptions.input = entry ∧ cfg.outputOptions.exports = none)
    ∧ (readEntry = none →
      cfg.inputOptions.input = entry ∧ cfg.outputOptions.exports = none)
    ∧ (∀ content, format ≠ "es" → readEntry = some content →
        hasDefaultExport content = true → hasNamedExport content = true →
        cfg.inputOptions.input = jsResolve dirnameVar "../src/lib/__entry__.js"
        ∧ cfg.outputOptions.exports = some "default") := by
  obtain ⟨ext2, _, _, hinput, hexports, _⟩ :=
    createConfig_ok_fields options entry format writeMeta readEntry dirnameVar cfg hok
  refine ⟨?_, ?_, ?_⟩
  · intro hes
    have hnone : exportTypeOf format readEntry = none := by
      simp [exportTypeOf, hes]
    rw [hnone] at hinput hexports
    exact ⟨hinput, hexports⟩
  · intro hread
    have hnone : exportTypeOf format readEntry = none := by
      simp [exportTypeOf, hread]
    rw [hnone] at hinput hexports
    exact ⟨hinput, hexports⟩
  · intro content hne hread hdef hnamed
    have hsome : exportTypeOf format readEntry = some "default" := by
      simp [exportTypeOf, hne, hread, hdef, hnamed]
    rw [hsome] at hinput hexports
    exact ⟨hinput, hexports⟩

/-- Witness for claim C5: the spec's example source built for `umd` is
wrapped with exports mode `default`; the same source built for `es` is
not. -/
theorem c5_export_shape_witness :
    ((createConfig wOptions "/p/src/index.js" "umd" true (some exampleBothExports)
        "/nm").toOption.map (fun c => (c.inputOptions.input, c.outputOptions.exports)))
      = some (jsResolve "/nm" "../src/lib/__entry__.js", some "default")
    ∧ ((createConfig wOptions "/p/src/index.js" "es" true (some exampleBothExports)
        "/nm").toOption.map (fun c => (c.inputOptions.input, c.outputOptions.exports)))
      = some ("/p/src/index.js", none) := by
  constructor
  · cases hok : createConfig wOptions "/p/src/index.js" "umd" true (some exampleBothExports)
        "/nm" with
    | error e =>
      have hisok : (createConfig wOptions "/p/src/index.js" "umd" true
          (some exampleBothExports) "/nm").isOk = true := by decide
      rw [hok] at hisok
      simp [Except.isOk, Except.toBool] at hisok
    | ok cfg =>
      have h := (c5_export_shape wOptions "/p/src/index.js" "umd" true
          (some exampleBothExports) "/nm" cfg hok).2.2 exampleBothExports
          (by decide) rfl (by decide) (by decide)
      simp [Except.toOption, h.1, h.2]
  · cases hok : createConfig wOptions "/p/src/index.js" "es" true (some exampleBothExports)
        "/nm" with
    | error e =>
      have hisok : (createConfig wOptions "/p/src/index.js" "es" true
          (some exampleBothExports) "/nm").isOk = true := by decide
      rw [hok] at hisok
      simp [Except.isOk, Except.toBool] at hisok
    | ok cfg =>
      have h := (c5_export_shape wOptions "/p/src/index.js" "es" true
          (some exampleBothExports) "/nm" cfg hok).1 rfl
      simp [Except.toOption, h.1, h.2]

theorem externalsOf_dot (options : Options) (entry : String) (ext2 : List String)
    (hok : externalsOf options entry = Except.ok ext2)
    (hm : options.multipleEntries = true) : "." ∈ ext2 := by
  simp only [externalsOf, hm, if_true] at hok
  by_cases h1 : options.inline = some "all"
  · rw [if_pos h1] at hok
    simp only [Except.ok.injEq] at hok
    rw [← hok]
    exact List.mem_append_right _ (List.mem_singleton_self _)
  · rw [if_neg h1] at hok
    by_cases h2 : (options.external = some "all" || options.inline = some "none") = true
    · rw [if_pos h2] at hok
      cases hdeps : options.pkg.dependencies with
      | none =>
        rw [hdeps] at hok
        exact absurd hok (by simp)
      | some deps =>
        rw [hdeps] at hok
        simp only [Except.ok.injEq] at hok
        rw [← hok]
        exact List.mem_append_left _
          (List.mem_append_right _ (List.mem_singleton_self _))
    · rw [if_neg h2] at hok
      simp only [Except.ok.injEq] at hok
      rw [← hok]
      exact List.mem_append_right _ (List.mem_singleton_self _)

/-- Claim C6, amended: in a multi-entry run, the `.` → `./<output
basename>` alias is registered for EVERY entry's config (not only the
first processed entry), and `.` is added to every entry's externals;
single-entry runs register no alias. -/
theorem c6_alias_amended (options : Options) (entry format : String) (writeMeta : Bool)
    (readEntry : Option String) (dirnameVar : String) (cfg : BuildConfig)
    (hok : createConfig options entry format writeMeta readEntry dirnameVar
      = Except.ok cfg) :
    (options.multipleEntries = true →
      cfg.outputOptions.paths = [(".", "./" ++ jsBasename options.output)]
      ∧ "." ∈ cfg.inputOptions.external)
    ∧ (options.multipleEntries = false → cfg.outputOptions.paths = []) := by
  obtain ⟨ext2, hE, hext, _, _, hpaths, _, _⟩ :=
    createConfig_ok_fields options entry format writeMeta readEntry dirnameVar cfg hok
  constructor
  · intro hm
    constructor
    · rw [hpaths]
      simp [aliasesOf, hm]
    · rw [hext]
      exact externalsOf_dot options entry ext2 hE hm
  · intro hm
    rw [hpaths]
    simp [aliasesOf, hm]

/-- Claim C6, counterexample: in a concrete two-entry run, the step of the
SECOND processed entry also carries the `.` alias and the `.` external —
the registration is not limited to the first processed entry. -/
theorem c6_counterexample :
    ((microbundleModel c6RunOptions (some demoPkg) alwaysFalse alwaysFalse demoGlob
        noRead "/" "/nm").2.toOption.map
      (fun plan => (plan.entries,
        plan.steps.map (fun c =>
          (c.outputOptions.paths, c.inputOptions.external.contains ".")))))
    = some (["/p/src/a.js", "/p/src/b.js"],
        [([(".", "./bundle.js")], true), ([(".", "./bundle.js")], true)]) := by
  rfl

/-- Witness for the amended claim C6 at a concrete multi-entry config of
the non-first entry. -/
theorem c6_alias_amended_witness :
    ((createConfig mOptions "/p/src/b.js" "cjs" false none "/nm").toOption.map
      (fun c => (c.outputOptions.paths, c.inputOptions.external.contains ".")))
    = some ([(".", "./bundle.js")], true) := by
  cases hok : createConfig mOptions "/p/src/b.js" "cjs" false none "/nm" with
  | error e =>
    have hisok : (createConfig mOptions "/p/src/b.js" "cjs" false none "/nm").isOk
        = true := by decide
    rw [hok] at hisok
    simp [Except.isOk, Except.toBool] at hisok
  | ok cfg =>
    have h := (c6_alias_amended mOptions "/p/src/b.js" "cjs" false none "/nm" cfg hok).1 rfl
    have hdot : cfg.inputOptions.external.contains "." = true := by
      simpa using h.2
    simp [Except.toOption, h.1, hdot, h.2, mOptions, jsBasename]

theorem lookup_append_some (l1 l2 : List (String × String)) (k v : String)
    (h : List.lookup k l1 = some v) : List.lookup k (l1 ++ l2) = some v := by
  induction l1 with
  | nil => simp [List.lookup] at h
  | cons p rest ih =>
    obtain ⟨k1, v1⟩ := p
    rw [List.cons_append, List.lookup] at *
    cases hk : (k == k1)
    · rw [hk] at h
      exact ih h
    · rw [hk] at h
      exact h

theorem lookup_append_none (l1 l2 : List (String × String)) (k : String)
    (h : List.lookup k l1 = none) : List.lookup k (l1 ++ l2) = List.lookup k l2 := by
  induction l1 with
  | nil => simp
  | cons p rest ih =>
    obtain ⟨k1, v1⟩ := p
    rw [List.cons_append, List.lookup] at *
    cases hk : (k == k1)
    · rw [hk] at h
      exact ih h
    · rw [hk] at h
      exact Option.noConfusion h

theorem lookup_none_iff_any_false (g : List (String × String)) (n : String) :
    List.lookup n g = none ↔ (g.any (fun q => q.1 = n)) = false := by
  induction g with
  | nil => simp
  | cons p rest ih =>
    obtain ⟨k1, v1⟩ := p
    rw [List.lookup, List.any_cons]
    cases hk : (n == k1)
    · have hne : ¬(k1 = n) := by
        intro he
        rw [he] at hk
        simp at hk
      simp [hne, ih]
    · have he : k1 = n := (eq_of_beq hk).symm
      simp [he]

theorem globalsOf_eq_foldl (l : List String) :
    globalsOf l = l.foldl globalsStep [] := rfl

theorem foldl_globalsStep_keeps (l : List String) :
    ∀ g0 : List (String × String), ∀ k v, List.lookup k g0 = some v →
      List.lookup k (l.foldl globalsStep g0) = some v := by
  induction l with
  | nil => intro g0 k v h; exact h
  | cons n rest ih =>
    intro g0 k v h
    rw [List.foldl_cons]
    apply ih
    unfold globalsStep
    by_cases h1 : isLowerIdentJs n = true
    · rw [if_pos h1]
      by_cases h2 : (g0.any (fun q => q.1 = n)) = true
      · rw [if_pos h2]
        exact h
      · rw [if_neg h2]
        exact lookup_append_some g0 [(n, n)] k v h
    · rw [if_neg h1]
      exact h

theorem foldl_globalsStep_lookup (name : String) (l : List String) :
    ∀ g0 : List (String × String), List.lookup name g0 = none →
      (List.lookup name (l.foldl globalsStep g0) = some name ↔
        (name ∈ l ∧ isLowerIdentJs name = true)) := by
  induction l with
  | nil =>
    intro g0 h
    simp [h]
  | cons n rest ih =>
    intro g0 h
    rw [List.foldl_cons]
    by_cases h1 : isLowerIdentJs n = true
    · by_cases h2 : (g0.any (fun q => q.1 = n)) = true
      · have hstep : globalsStep g0 n = g0 := by
          unfold globalsStep
          rw [if_pos h1, if_pos h2]
        rw [hstep]
        have hne : name ≠ n := by
          intro he
          rw [← he] at h2
          rw [(lookup_none_iff_any_false g0 name).1 h] at h2
          exact Bool.false_ne_true h2
        rw [ih g0 h]
        simp [List.mem_cons, hne]
      · have hstep : globalsStep g0 n = g0 ++ [(n, n)] := by
          unfold globalsStep
          rw [if_pos h1, if_neg h2]
        rw [hstep]
        by_cases hne : name = n
        · subst hne
          have hsome : List.lookup name (g0 ++ [(name, name)]) = some name := by
            rw [lookup_append_none g0 _ name h]
            simp [List.lookup]
          rw [foldl_globalsStep_keeps rest _ name name hsome]
          simp [h1]
        · have hnone : List.lookup name (g0 ++ [(n, n)]) = none := by
            rw [lookup_append_none g0 _ name h]
            have hb : (name == n) = false := by
              simp [hne]
            simp [List.lookup, hb]
          rw [ih _ hnone]
          simp [List.mem_cons, hne]
    · have hstep : globalsStep g0 n = g0 := by
        unfold globalsStep
        rw [if_neg h1]
      rw [hstep]
      by_cases hne : name = n
      · subst hne
        rw [ih g0 h]
        have h1f : isLowerIdentJs name = false := by
          rw [Bool.not_eq_true] at h1
          exact h1
        simp [h1f]
      · rw [ih g0 h]
        simp [List.mem_cons, hne]

/-- Claim C9, amended: an external name is registered in the globals map,
bound to itself, if and only if it matches the lowercase identifier
pattern `^[a-z_$][a-z0-9_$]*$` — not the full set of valid bare JS
identifiers (uppercase-containing identifiers are not registered). -/
theorem c9_globals_amended (options : Options) (entry format : String) (writeMeta : Bool)
    (readEntry : Option String) (dirnameVar : String) (cfg : BuildConfig)
    (hok : createConfig options entry format writeMeta readEntry dirnameVar
      = Except.ok cfg) :
    ∀ nm ∈ cfg.inputOptions.external,
      (List.lookup nm cfg.outputOptions.globals = some nm ↔ isLowerIdentJs nm = true) := by
  obtain ⟨ext2, _, hext, _, _, _, hglob, _⟩ :=
    createConfig_ok_fields options entry format writeMeta readEntry dirnameVar cfg hok
  intro nm hmem
  rw [hext] at hmem
  rw [hglob, globalsOf_eq_foldl]
  rw [foldl_globalsStep_lookup nm ext2 [] (by simp)]
  constructor
  · intro hp
    exact hp.2
  · intro hp
    exact ⟨hmem, hp⟩

/-- Claim C9, counterexample: with a peer dependency `MD5` — a valid bare
JS identifier — the name is in the externals set but absent from the
globals map, because the source regex only admits lowercase identifiers. -/
theorem c9_counterexample :
    ((createConfig c9Options "/p/src/index.js" "cjs" true none "/nm").toOption.map
      (fun c => (c.inputOptions.external.contains "MD5",
        validBareIdentifier "MD5",
        List.lookup "MD5" c.outputOptions.globals)))
    = some (true, true, none) := by
  rfl

/-- Witness for the amended claim C9: the lowercase peer dependency
`react` is registered and bound to itself. -/
theorem c9_globals_amended_witness :
    ((createConfig c9Options "/p/src/index.js" "cjs" true none "/nm").toOption.map
      (fun c => List.lookup "react" c.outputOptions.globals))
    = some (some "react") := by
  cases hok : createConfig c9Options "/p/src/index.js" "cjs" true none "/nm" with
  | error e =>
    have hisok : (createConfig c9Options "/p/src/index.js" "cjs" true none "/nm").isOk
        = true := by decide
    rw [hok] at hisok
    simp [Except.isOk, Except.toBool] at hisok
  | ok cfg =>
    have hc : ((createConfig c9Options "/p/src/index.js" "cjs" true none "/nm").toOption.map
        (fun c => c.inputOptions.external.contains "react")) = some true := by decide
    rw [hok] at hc
    simp only [Except.toOption, Option.map_some, Option.some.injEq] at hc
    have hmem : "react" ∈ cfg.inputOptions.external := by
      simpa using hc
    have hiff := c9_globals_amended c9Options "/p/src/index.js" "cjs" true none "/nm"
      cfg hok "react" hmem
    have := hiff.2 (by decide)
    simp [Except.toOption, this]

theorem splitOnChar_ne_nil (c : Char) (l : List Char) : splitOnChar c l ≠ [] := by
  cases l with
  | nil => simp [splitOnChar]
  | cons x xs =>
    rw [splitOnChar]
    by_cases hx : x = c
    · simp [hx]
    · rw [if_neg hx]
      cases h : splitOnChar c xs <;> simp

theorem joinSegs_splitOnChar (l : List Char) : joinSegs (splitOnChar '/' l) = l := by
  induction l with
  | nil => rfl
  | cons x xs ih =>
    rw [splitOnChar]
    by_cases hx : x = '/'
    · rw [if_pos hx]
      cases h : splitOnChar '/' xs with
      | nil => exact absurd h (splitOnChar_ne_nil '/' xs)
      | cons s rest =>
        rw [h] at ih
        simp [joinSegs, hx, ih]
    · rw [if_neg hx]
      cases h : splitOnChar '/' xs with
      | nil => exact absurd h (splitOnChar_ne_nil '/' xs)
      | cons s rest =>
        rw [h] at ih
        cases rest with
        | nil =>
          simp [joinSegs] at ih
          simp [joinSegs, ih]
        | cons s2 rest2 =>
          simp [joinSegs] at ih ⊢
          simp [ih]

theorem normSegs_all_good (segs : List (List Char)) :
    ∀ acc, segs.all goodSeg = true → normSegs acc segs = acc.reverse ++ segs := by
  induction segs with
  | nil =>
    intro acc _
    simp [normSegs]
  | cons seg rest ih =>
    intro acc hall
    rw [List.all_cons, Bool.and_eq_true] at hall
    have hg := hall.1
    rw [goodSeg, Bool.and_eq_true, Bool.and_eq_true] at hg
    have h1 : ¬((seg.isEmpty || seg == ['.']) = true) := by
      intro hor
      rw [Bool.or_eq_true] at hor
      rcases hor with he | hd
      · rw [he] at hg
        simp at hg
      · have := eq_of_beq hd
        rw [this] at hg
        simp at hg
    have h2 : ¬((seg == ['.', '.']) = true) := by
      intro hd
      have := eq_of_beq hd
      rw [this] at hg
      simp at hg
    rw [normSegs, if_neg h1, if_neg h2, ih (seg :: acc) hall.2]
    simp

theorem mkToList (s : String) : String.mk s.toList = s := rfl

theorem normalizeAbs_clean (s : String) (h : cleanAbs s = true) :
    String.mk (normalizeAbs s.toList) = s := by
  unfold cleanAbs at h
  cases hl : s.toList with
  | nil => rw [hl] at h; simp at h
  | cons c rest =>
    rw [hl] at h
    simp only [Bool.and_eq_true, decide_eq_true_eq] at h
    obtain ⟨hc, hall⟩ := h
    have key : normalizeAbs (c :: rest) = c :: rest := by
      rw [hc]
      rw [normalizeAbs]
      have hsplit : splitOnChar '/' ('/' :: rest) = [] :: splitOnChar '/' rest := by
        rw [splitOnChar, if_pos rfl]
      rw [hsplit, normSegs, if_pos (by simp), normSegs_all_good _ [] hall]
      rw [List.reverse_nil, List.nil_append, joinSegs_splitOnChar]
    show String.mk (normalizeAbs (c :: rest)) = s
    rw [key, ← hl]
    exact mkToList s

theorem cleanAbs_head (s : String) (h : cleanAbs s = true) : s.toList.head? = some '/' := by
  unfold cleanAbs at h
  cases hl : s.toList with
  | nil => rw [hl] at h; simp at h
  | cons c rest =>
    rw [hl] at h
    simp only [Bool.and_eq_true, decide_eq_true_eq] at h
    rw [h.1]
    rfl

theorem jsResolve_abs_clean (base p : String) (h : cleanAbs p = true) :
    jsResolve base p = p := by
  rw [jsResolve, if_pos (cleanAbs_head p h)]
  exact normalizeAbs_clean p h

theorem splitOnChar_append_noSep (t : List Char) (hns : ∀ ch ∈ t, ch ≠ '/') :
    ∀ l, splitOnChar '/' (l ++ t) = mapLast (fun x => x ++ t) (splitOnChar '/' l) := by
  intro l
  induction l with
  | nil =>
    rw [List.nil_append]
    have hone : splitOnChar '/' t = [t] := by
      induction t with
      | nil => rfl
      | cons ch chs ih =>
        rw [splitOnChar]
        rw [if_neg (hns ch (List.mem_cons_self ch chs))]
        rw [ih (fun x hx => hns x (List.mem_cons_of_mem ch hx))]
    rw [hone]
    rfl
  | cons x xs ih =>
    rw [List.cons_append, splitOnChar, splitOnChar]
    by_cases hx : x = '/'
    · rw [if_pos hx, if_pos hx, ih]
      cases h : splitOnChar '/' xs with
      | nil => exact absurd h (splitOnChar_ne_nil '/' xs)
      | cons s rest => rfl
    · rw [if_neg hx, if_neg hx, ih]
      cases h : splitOnChar '/' xs with
      | nil => exact absurd h (splitOnChar_ne_nil '/' xs)
      | cons s rest =>
        cases rest with
        | nil => rfl
        | cons s2 rest2 => rfl

theorem mapLast_all (p : List Char → Bool) (f : List Char → List Char)
    (hpres : ∀ x, p x = true → p (f x) = true) :
    ∀ l, l.all p = true → (mapLast f l).all p = true := by
  intro l
  induction l with
  | nil => intro _; rfl
  | cons x xs ih =>
    intro hall
    rw [List.all_cons, Bool.and_eq_true] at hall
    cases xs with
    | nil =>
      rw [mapLast, List.all_cons]
      simp [hpres x hall.1]
    | cons y ys =>
      rw [mapLast, List.all_cons]
      rw [ih hall.2]
      simp [hall.1]

theorem cleanAbs_append (s t : String) (hs : cleanAbs s = true)
    (hns : ∀ ch ∈ t.toList, ch ≠ '/')
    (hlen : 2 < t.toList.length) : cleanAbs (s ++ t) = true := by
  have hdata : (s ++ t).toList = s.toList ++ t.toList := rfl
  unfold cleanAbs at hs ⊢
  cases hl : s.toList with
  | nil => rw [hl] at hs; simp at hs
  | cons c rest =>
    rw [hl] at hs
    simp only [Bool.and_eq_true, decide_eq_true_eq] at hs
    obtain ⟨hc, hall⟩ := hs
    rw [hdata, hl, List.cons_append]
    simp only [Bool.and_eq_true, decide_eq_true_eq]
    refine ⟨hc, ?_⟩
    rw [splitOnChar_append_noSep t.toList hns rest]
    apply mapLast_all goodSeg (fun x => x ++ t.toList) ?_ _ hall
    intro x _
    show goodSeg (x ++ t.toList) = true
    have hxlen : 2 < (x ++ t.toList).length := by
      rw [List.length_append]
      omega
    rw [goodSeg, Bool.and_eq_true, Bool.and_eq_true]
    refine ⟨⟨?_, ?_⟩, ?_⟩
    · cases hE : (x ++ t.toList) with
      | nil =>
        rw [hE] at hxlen
        simp at hxlen
      | cons ch l2 =>
        rfl
    · rw [bne_iff_ne]
      intro he
      rw [he] at hxlen
      simp at hxlen
    · rw [bne_iff_ne]
      intro he
      rw [he] at hxlen
      simp at hxlen

theorem replaceName_m_js (n : String) : replaceName "x.m.js" n = jsResolve "." (n ++ ".m.js") :=
  rfl

theorem replaceName_js (n : String) : replaceName "x.js" n = jsResolve "." (n ++ ".js") := rfl

theorem replaceName_umd_js (n : String) :
    replaceName "x.umd.js" n = jsResolve "." (n ++ ".umd.js") := rfl

/-- Claim C4, counterexample: a run with the two entries `src/a/index.js`
and `src/b/index.js` (both index-named, so both collapse onto the shared
main output base) and format `es` produces two BuildConfigs with the SAME
destination file, and the run plan is produced without any error — the
collision is not surfaced. -/
theorem c4_counterexample :
    ((microbundleModel c4RunOptions (some demoPkg) alwaysFalse alwaysFalse demoGlob
        noRead "/" "/nm").2.toOption.map
      (fun plan => (plan.entries, plan.steps.map (fun c => c.outputOptions.file))))
    = some (["/p/src/a/index.js", "/p/src/b/index.js"],
        ["/p/dist/bundle.m.js", "/p/dist/bundle.m.js"]) := by
  rfl

/-- Claim C4, amended: output paths are not guaranteed unique and no
collision is surfaced (see the counterexample, where two index-named
entries collide).  What does hold: for a single-entry run whose manifest
declares none of the per-format main fields (`module`, `jsnext:main`,
`cjs:main`, `umd:main`), the destinations of the `es`, `cjs` and `umd`
formats are pairwise distinct — they are the shared stripped output base
with the distinct suffixes `.m.js`, `.js` and `.umd.js`. -/
theorem c4_output_paths_amended (options : Options) (entry : String)
    (writeMeta : Bool) (readEntry : Option String) (dirnameVar : String)
    (hm : options.multipleEntries = false)
    (hmod : options.pkg.module = none) (hjn : options.pkg.jsnextMain = none)
    (hcm : options.pkg.cjsMain = none) (hum : options.pkg.umdMain = none)
    (hclean : cleanAbs (stripFormatJs options.output) = true) :
    (∀ f cfg, createConfig options entry f writeMeta readEntry dirnameVar = Except.ok cfg →
      cfg.outputOptions.file = outputFileOf options entry f)
    ∧ outputFileOf options entry "es" = stripFormatJs options.output ++ ".m.js"
    ∧ outputFileOf options entry "cjs" = stripFormatJs options.output ++ ".js"
    ∧ outputFileOf options entry "umd" = stripFormatJs options.output ++ ".umd.js"
    ∧ outputFileOf options entry "es" ≠ outputFileOf options entry "cjs"
    ∧ outputFileOf options entry "es" ≠ outputFileOf options entry "umd"
    ∧ outputFileOf options entry "cjs" ≠ outputFileOf options entry "umd" := by
  have hN : mainNoExtensionOf options entry = stripFormatJs options.output := by
    rw [mainNoExtensionOf, hm]
    simp
  have hcleanEs : cleanAbs (stripFormatJs options.output ++ ".m.js") = true :=
    cleanAbs_append _ _ hclean (by decide) (by decide)
  have hcleanCjs : cleanAbs (stripFormatJs options.output ++ ".js") = true :=
    cleanAbs_append _ _ hclean (by decide) (by decide)
  have hcleanUmd : cleanAbs (stripFormatJs options.output ++ ".umd.js") = true :=
    cleanAbs_append _ _ hclean (by decide) (by decide)
  have hes : outputFileOf options entry "es" = stripFormatJs options.output ++ ".m.js" := by
    rw [outputFileOf, if_pos rfl, moduleMainOf, hmod, hjn, hN]
    have : jsTruthyS none = false := rfl
    rw [this]
    simp only [Bool.false_and, Bool.false_eq_true, if_false]
    rw [show strOr none "x.m.js" = "x.m.js" from rfl, replaceName_m_js]
    rw [jsResolve_abs_clean _ _ hcleanEs, jsResolve_abs_clean _ _ hcleanEs]
  have hcjs : outputFileOf options entry "cjs" = stripFormatJs options.output ++ ".js" := by
    rw [outputFileOf, if_neg (by decide), if_neg (by decide), cjsMainOf, hcm, hN]
    rw [show strOr none "x.js" = "x.js" from rfl, replaceName_js]
    rw [jsResolve_abs_clean _ _ hcleanCjs, jsResolve_abs_clean _ _ hcleanCjs]
  have humd : outputFileOf options entry "umd" = stripFormatJs options.output ++ ".umd.js" := by
    rw [outputFileOf, if_neg (by decide), if_pos rfl, umdMainOf, hum, hN]
    rw [show strOr none "x.umd.js" = "x.umd.js" from rfl, replaceName_umd_js]
    rw [jsResolve_abs_clean _ _ hcleanUmd, jsResolve_abs_clean _ _ hcleanUmd]
  have hdistinct : ∀ t1 t2 : String, t1.toList ≠ t2.toList →
      stripFormatJs options.output ++ t1 ≠ stripFormatJs options.output ++ t2 := by
    intro t1 t2 hne he
    apply hne
    have hdata := congrArg String.toList he
    have h1 : (stripFormatJs options.output ++ t1).toList
        = (stripFormatJs options.output).toList ++ t1.toList := rfl
    have h2 : (stripFormatJs options.output ++ t2).toList
        = (stripFormatJs options.output).toList ++ t2.toList := rfl
    rw [h1, h2] at hdata
    exact List.append_cancel_left hdata
  refine ⟨?_, hes, hcjs, humd, ?_, ?_, ?_⟩
  · intro f cfg hok
    obtain ⟨_, _, _, _, _, _, _, hfile⟩ :=
      createConfig_ok_fields options entry f writeMeta readEntry dirnameVar cfg hok
    exact hfile
  · rw [hes, hcjs]
    exact hdistinct _ _ (by decide)
  · rw [hes, humd]
    exact hdistinct _ _ (by decide)
  · rw [hcjs, humd]
    exact hdistinct _ _ (by decide)

/-- Witness for the amended claim C4 at a concrete single-entry run. -/
theorem c4_output_paths_amended_witness :
    outputFileOf wOptions "/p/src/index.js" "es" = "/p/dist/t" ++ ".m.js"
    ∧ outputFileOf wOptions "/p/src/index.js" "es"
        ≠ outputFileOf wOptions "/p/src/index.js" "cjs"
    ∧ outputFileOf wOptions "/p/src/index.js" "cjs"
        ≠ outputFileOf wOptions "/p/src/index.js" "umd" := by
  have h := c4_output_paths_amended wOptions "/p/src/index.js" true none "/nm"
    rfl rfl rfl rfl rfl (by decide)
  exact ⟨h.2.1, h.2.2.2.2.1, h.2.2.2.2.2.2⟩

end Microbundle
